import Mathlib

/-!
Shallow embedding of the packing core of `src/utils/packingAlgorithm.ts`.

JS numbers are modelled as exact rationals (`ℚ`); the spec declares the core
unit-agnostic, and no claim depends on floating-point rounding.  Optional
fields (`priority?`, `quantity?`, margins, `spacing`, `multiPage`) are
`Option` values; the JS idiom `v || d` on numbers maps `none` and `0` to `d`,
which coincides with `Option.getD` for the numeric defaults `0` used in the
source (`0 || 0 = 0`).  `Array.prototype.sort` is stable (ES2019), so it is
modelled by a stable insertion sort driven by the source's comparator.
Mutating index loops (`splice`, the MaxRects prune loop) are modelled by
structurally recursive functions that perform the same sequence of reads and
removals.
-/

structure PhotoSize where
  name : String
  width : ℚ
  height : ℚ
deriving DecidableEq, Repr

structure Photo where
  id : ℚ
  name : String
  dataUrl : String
  size : PhotoSize
  rotation : ℚ
  imgWidth : ℚ
  imgHeight : ℚ
  priority : Option ℚ
  quantity : Option ℕ
deriving DecidableEq, Repr

/-- `PackedPhoto extends Photo` in the source; modelled by composition. -/
structure PackedPhoto where
  photo : Photo
  x : ℚ
  y : ℚ
  pageIndex : ℕ
deriving DecidableEq, Repr

structure FreeRectangle where
  x : ℚ
  y : ℚ
  width : ℚ
  height : ℚ
deriving DecidableEq, Repr

instance : Inhabited FreeRectangle := ⟨⟨0, 0, 0, 0⟩⟩

structure PackingOptions where
  paperWidth : ℚ
  paperHeight : ℚ
  marginTop : Option ℚ
  marginRight : Option ℚ
  marginBottom : Option ℚ
  marginLeft : Option ℚ
  spacing : Option ℚ
  multiPage : Option Bool
deriving DecidableEq, Repr

/-- Source: `getRotatedDimensions` — effective bounding box after rotation. -/
def getRotatedDimensions (photo : Photo) : ℚ × ℚ :=
  if photo.rotation = 90 ∨ photo.rotation = 270 then
    (photo.size.height, photo.size.width)
  else
    (photo.size.width, photo.size.height)

/-- Source: `getPrintableArea` — page minus margins. -/
def getPrintableArea (options : PackingOptions) : FreeRectangle :=
  let marginLeft := options.marginLeft.getD 0
  let marginRight := options.marginRight.getD 0
  let marginTop := options.marginTop.getD 0
  let marginBottom := options.marginBottom.getD 0
  { x := marginLeft
    y := marginTop
    width := options.paperWidth - marginLeft - marginRight
    height := options.paperHeight - marginTop - marginBottom }

/-- One step of stable insertion: place `a` before the first element it does
not have to follow (`cmp a b ≤ 0`), as a stable JS `sort` does. -/
def jsSortInsert (cmp : α → α → ℚ) (a : α) : List α → List α
  | [] => [a]
  | b :: l => if cmp a b ≤ 0 then a :: b :: l else b :: jsSortInsert cmp a l

/-- Model of the stable `Array.prototype.sort` with a numeric comparator. -/
def jsSort (cmp : α → α → ℚ) : List α → List α
  | [] => []
  | a :: l => jsSortInsert cmp a (jsSort cmp l)

/-- Comparator used by guillotine and maxrects: priority desc, then
effective area desc. -/
def cmpPriorityArea (a b : Photo) : ℚ :=
  if a.priority.getD 0 ≠ b.priority.getD 0 then
    b.priority.getD 0 - a.priority.getD 0
  else
    let aSize := getRotatedDimensions a
    let bSize := getRotatedDimensions b
    bSize.1 * bSize.2 - aSize.1 * aSize.2

/-- Comparator used by shelf: priority desc, then effective height desc. -/
def cmpPriorityHeight (a b : Photo) : ℚ :=
  if a.priority.getD 0 ≠ b.priority.getD 0 then
    b.priority.getD 0 - a.priority.getD 0
  else
    let aSize := getRotatedDimensions a
    let bSize := getRotatedDimensions b
    bSize.2 - aSize.2

def fitsB (rw rh : ℚ) (r : FreeRectangle) : Bool :=
  decide (rw ≤ r.width) && decide (rh ≤ r.height)

/-- First-fit scan of the free-rectangle store; returns the elements before
the hit, the hit, and the elements after (mirrors the indexed loop plus
`splice(i, 1)`). -/
def findFit (rw rh : ℚ) :
    List FreeRectangle → Option (List FreeRectangle × FreeRectangle × List FreeRectangle)
  | [] => none
  | r :: rest =>
    if fitsB rw rh r then some ([], r, rest)
    else (findFit rw rh rest).map (fun p => (r :: p.1, p.2.1, p.2.2))

/-- Guillotine split of the host rectangle: narrow right strip of height
`rh`, full-width bottom strip. -/
def guillotineChildren (rect : FreeRectangle) (rw rh : ℚ) : List FreeRectangle :=
  (if rw < rect.width then
    [⟨rect.x + rw, rect.y, rect.width - rw, rh⟩] else []) ++
  (if rh < rect.height then
    [⟨rect.x, rect.y + rh, rect.width, rect.height - rh⟩] else [])

/-- Comparator `(a, b) => b.width * b.height - a.width * a.height`. -/
def areaCmp (a b : FreeRectangle) : ℚ :=
  b.width * b.height - a.width * a.height

structure RectPackState where
  packed : List PackedPhoto
  currentPage : ℕ
  freeRectangles : List FreeRectangle
deriving Repr

/-- One iteration of the guillotine placement loop. -/
def guillotineStep (printable : FreeRectangle) (spacing : ℚ) (mp : Bool)
    (st : RectPackState) (photo : Photo) : RectPackState :=
  let dims := getRotatedDimensions photo
  let rw := dims.1 + spacing
  let rh := dims.2 + spacing
  match findFit rw rh st.freeRectangles with
  | some (before, rect, after) =>
    { packed := st.packed ++ [⟨photo, rect.x, rect.y, st.currentPage⟩]
      currentPage := st.currentPage
      freeRectangles :=
        jsSort areaCmp (before ++ after ++ guillotineChildren rect rw rh) }
  | none =>
    if mp then
      if fitsB rw rh printable then
        { packed := st.packed ++ [⟨photo, printable.x, printable.y, st.currentPage + 1⟩]
          currentPage := st.currentPage + 1
          freeRectangles := jsSort areaCmp (guillotineChildren printable rw rh) }
      else
        { packed := st.packed
          currentPage := st.currentPage + 1
          freeRectangles := [printable] }
    else st

/-- Source: `packPhotosGuillotine`. -/
def packPhotosGuillotine (photos : List Photo) (options : PackingOptions) :
    List PackedPhoto :=
  let printable := getPrintableArea options
  let spacing := options.spacing.getD 0
  let sortedPhotos := jsSort cmpPriorityArea photos
  (sortedPhotos.foldl
    (guillotineStep printable spacing (options.multiPage.getD false))
    ⟨[], 0, [printable]⟩).packed

structure ShelfState where
  packed : List PackedPhoto
  currentPage : ℕ
  currentX : ℚ
  currentY : ℚ
  shelfHeight : ℚ
deriving Repr

/-- Shelf emission: place the photo at the cursor, advance the cursor by the
padded width, and raise the shelf height. -/
def shelfPlace (photo : Photo) (rw rh : ℚ) (s : ShelfState) : ShelfState :=
  { packed := s.packed ++ [⟨photo, s.currentX, s.currentY, s.currentPage⟩]
    currentPage := s.currentPage
    currentX := s.currentX + rw
    currentY := s.currentY
    shelfHeight := max s.shelfHeight rh }

/-- Shelf advance: when the photo does not fit horizontally, move to the
next shelf. -/
def shelfAdv (printable : FreeRectangle) (rw : ℚ) (st : ShelfState) : ShelfState :=
  if printable.x + printable.width < st.currentX + rw then
    { st with currentY := st.currentY + st.shelfHeight
              currentX := printable.x
              shelfHeight := 0 }
  else st

/-- One iteration of the shelf placement loop.  Cursor mutations performed
before a skipped photo (`continue`) persist, exactly as in the source. -/
def shelfStep (printable : FreeRectangle) (spacing : ℚ) (mp : Bool)
    (st : ShelfState) (photo : Photo) : ShelfState :=
  let dims := getRotatedDimensions photo
  let rw := dims.1 + spacing
  let rh := dims.2 + spacing
  let st1 := shelfAdv printable rw st
  if printable.y + printable.height < st1.currentY + rh then
    if mp then
      shelfPlace photo rw rh ⟨st1.packed, st1.currentPage + 1, printable.x, printable.y, 0⟩
    else st1
  else shelfPlace photo rw rh st1

/-- Source: `packPhotosShelf`. -/
def packPhotosShelf (photos : List Photo) (options : PackingOptions) :
    List PackedPhoto :=
  let printable := getPrintableArea options
  let spacing := options.spacing.getD 0
  let sortedPhotos := jsSort cmpPriorityHeight photos
  (sortedPhotos.foldl
    (shelfStep printable spacing (options.multiPage.getD false))
    ⟨[], 0, printable.x, printable.y, 0⟩).packed

/-- The accumulator update of the best-short-side-fit scan: a fitting
candidate at index `j` replaces the best so far only on strict improvement
of `(shortSideFit, longSideFit)`. -/
def selBetter (rw rh : ℚ) (j : ℕ) (r : FreeRectangle) :
    Option (ℕ × FreeRectangle × ℚ × ℚ) → Option (ℕ × FreeRectangle × ℚ × ℚ)
  | none => some (j, r, min (r.width - rw) (r.height - rh),
      max (r.width - rw) (r.height - rh))
  | some (bi, br, bssf, blsf) =>
    if min (r.width - rw) (r.height - rh) < bssf ∨
        (min (r.width - rw) (r.height - rh) = bssf ∧
         max (r.width - rw) (r.height - rh) < blsf) then
      some (j, r, min (r.width - rw) (r.height - rh),
        max (r.width - rw) (r.height - rh))
    else some (bi, br, bssf, blsf)

/-- Best-short-side-fit scan: `j` is the index of the head of the remaining
list, the accumulator carries the best `(index, rect, shortSideFit,
longSideFit)` so far. -/
def selectAux (rw rh : ℚ) :
    ℕ → Option (ℕ × FreeRectangle × ℚ × ℚ) → List FreeRectangle →
    Option (ℕ × FreeRectangle × ℚ × ℚ)
  | _, best, [] => best
  | j, best, r :: rest =>
    selectAux rw rh (j + 1)
      (if fitsB rw rh r then selBetter rw rh j r best else best) rest

/-- The rect chosen by the MaxRects driver together with its position; the
source removes the chosen reference with `indexOf` + `splice`, which is the
position returned here. -/
def selectBestRect (rw rh : ℚ) (rects : List FreeRectangle) :
    Option (ℕ × FreeRectangle) :=
  (selectAux rw rh 0 none rects).map (fun p => (p.1, p.2.1))

/-- Source containment test (non-strict on every edge). -/
def isContainedIn (a b : FreeRectangle) : Bool :=
  decide (b.x ≤ a.x) && decide (b.y ≤ a.y) &&
  decide (a.x + a.width ≤ b.x + b.width) &&
  decide (a.y + a.height ≤ b.y + b.height)

/-- `shouldAdd` loop: append a child unless it is contained in a rect already
in the store (children added earlier in the same pass are visible). -/
def addIfNotContained (st : List FreeRectangle) (r : FreeRectangle) :
    List FreeRectangle :=
  if st.any (fun e => isContainedIn r e) then st else st ++ [r]

/-- One outer iteration of the prune loop at index `i`: remove `rects[i]`
when it is contained in some other element of the current store. -/
def pruneIdx (rects : List FreeRectangle) (i : ℕ) : List FreeRectangle :=
  if decide (i < rects.length) &&
      (List.range rects.length).any
        (fun j => (j != i) && isContainedIn (rects.getD i default) (rects.getD j default)) then
    rects.eraseIdx i
  else rects

/-- The backwards prune loop, indices `n - 1, …, 0` over the mutating store. -/
def pruneDown : List FreeRectangle → ℕ → List FreeRectangle
  | rects, 0 => rects
  | rects, n + 1 => pruneDown (pruneIdx rects n) n

def pruneContained (rects : List FreeRectangle) : List FreeRectangle :=
  pruneDown rects rects.length

/-- MaxRects split of the host: full-height right strip, full-width bottom
strip. -/
def maxRectsChildren (rect : FreeRectangle) (rw rh : ℚ) : List FreeRectangle :=
  (if rw < rect.width then
    [⟨rect.x + rw, rect.y, rect.width - rw, rect.height⟩] else []) ++
  (if rh < rect.height then
    [⟨rect.x, rect.y + rh, rect.width, rect.height - rh⟩] else [])

/-- One iteration of the MaxRects placement loop. -/
def maxRectsStep (printable : FreeRectangle) (spacing : ℚ) (mp : Bool)
    (st : RectPackState) (photo : Photo) : RectPackState :=
  let dims := getRotatedDimensions photo
  let rw := dims.1 + spacing
  let rh := dims.2 + spacing
  match selectBestRect rw rh st.freeRectangles with
  | some (i, bestRect) =>
    let afterRemove := st.freeRectangles.eraseIdx i
    let afterAdd := (maxRectsChildren bestRect rw rh).foldl addIfNotContained afterRemove
    { packed := st.packed ++ [⟨photo, bestRect.x, bestRect.y, st.currentPage⟩]
      currentPage := st.currentPage
      freeRectangles := pruneContained afterAdd }
  | none =>
    if mp then
      if fitsB rw rh printable then
        { packed := st.packed ++ [⟨photo, printable.x, printable.y, st.currentPage + 1⟩]
          currentPage := st.currentPage + 1
          freeRectangles := maxRectsChildren printable rw rh }
      else
        { packed := st.packed
          currentPage := st.currentPage + 1
          freeRectangles := [printable] }
    else st

/-- Source: `packPhotosMaxRects`. -/
def packPhotosMaxRects (photos : List Photo) (options : PackingOptions) :
    List PackedPhoto :=
  let printable := getPrintableArea options
  let spacing := options.spacing.getD 0
  let sortedPhotos := jsSort cmpPriorityArea photos
  (sortedPhotos.foldl
    (maxRectsStep printable spacing (options.multiPage.getD false))
    ⟨[], 0, [printable]⟩).packed

/-- Source: `packPhotos` — the algorithm selector is a runtime string; the
`switch` has a `default` arm that falls through to MaxRects. -/
def packPhotos (photos : List Photo) (algorithm : String)
    (options : PackingOptions) : List PackedPhoto :=
  if algorithm = "guillotine" then packPhotosGuillotine photos options
  else if algorithm = "shelf" then packPhotosShelf photos options
  else if algorithm = "maxrects" then packPhotosMaxRects photos options
  else packPhotosMaxRects photos options

/-- `photo.quantity || 1`: `undefined` and `0` are falsy. -/
def quantityOf (photo : Photo) : ℕ :=
  match photo.quantity with
  | none => 1
  | some q => if q = 0 then 1 else q

/-- Source: `expandPhotosByQuantity`. -/
def expandPhotosByQuantity (photos : List Photo) : List Photo :=
  photos.flatMap (fun photo =>
    (List.range (quantityOf photo)).map
      (fun (i : ℕ) => { photo with id := photo.id + (i : ℚ) * (1 / 10000) }))

open List

/-! ### Derived geometric vocabulary used by the claims -/

/-- Effective (rotation-aware) width of a photo. -/
def effW (p : Photo) : ℚ := (getRotatedDimensions p).1

/-- Effective (rotation-aware) height of a photo. -/
def effH (p : Photo) : ℚ := (getRotatedDimensions p).2

/-- The containment invariant of §3 of the spec, for one placement. -/
def insidePrintable (options : PackingOptions) (pl : PackedPhoto) : Prop :=
  options.marginLeft.getD 0 ≤ pl.x ∧
  options.marginTop.getD 0 ≤ pl.y ∧
  pl.x + effW pl.photo ≤ options.paperWidth - options.marginRight.getD 0 ∧
  pl.y + effH pl.photo ≤ options.paperHeight - options.marginBottom.getD 0

/-- Spacing-padded disjointness of two placements, in the open sense. -/
def paddedDisjoint (s : ℚ) (a b : PackedPhoto) : Prop :=
  a.x + effW a.photo + s ≤ b.x ∨ b.x + effW b.photo + s ≤ a.x ∨
  a.y + effH a.photo + s ≤ b.y ∨ b.y + effH b.photo + s ≤ a.y

/-- `inner` lies inside `outer`. -/
def subRect (inner outer : FreeRectangle) : Prop :=
  outer.x ≤ inner.x ∧ outer.y ≤ inner.y ∧
  inner.x + inner.width ≤ outer.x + outer.width ∧
  inner.y + inner.height ≤ outer.y + outer.height

/-! ### Basic lemmas about the sort model -/

theorem jsSortInsert_perm (cmp : α → α → ℚ) (a : α) (l : List α) :
    jsSortInsert cmp a l ~ a :: l := by
  induction l with
  | nil => rfl
  | cons b t ih =>
    by_cases h : cmp a b ≤ 0
    · simp [jsSortInsert, h]
    · simp only [jsSortInsert, if_neg h]
      exact (ih.cons b).trans (List.Perm.swap a b t)

theorem jsSort_perm (cmp : α → α → ℚ) (l : List α) : jsSort cmp l ~ l := by
  induction l with
  | nil => rfl
  | cons a t ih =>
    exact (jsSortInsert_perm cmp a (jsSort cmp t)).trans (ih.cons a)

theorem mem_jsSort {cmp : α → α → ℚ} {l : List α} {x : α} :
    x ∈ jsSort cmp l ↔ x ∈ l :=
  (jsSort_perm cmp l).mem_iff

theorem jsSort_length (cmp : α → α → ℚ) (l : List α) :
    (jsSort cmp l).length = l.length :=
  (jsSort_perm cmp l).length_eq

theorem jsSort_countP (cmp : α → α → ℚ) (p : α → Bool) (l : List α) :
    (jsSort cmp l).countP p = l.countP p :=
  (jsSort_perm cmp l).countP_eq p

theorem jsSort_pairwise {cmp : α → α → ℚ} {R : α → α → Prop}
    (hs : Symmetric R) {l : List α} (h : l.Pairwise R) :
    (jsSort cmp l).Pairwise R :=
  (@List.Perm.pairwise_iff _ R (fun {_ _} hxy => hs hxy) _ _ (jsSort_perm cmp l)).mpr h

theorem sublist_jsSortInsert {cmp : α → α → ℚ} (c : α) :
    ∀ {l' l : List α}, l' <+ l → l' <+ jsSortInsert cmp c l := by
  intro l' l h
  induction l generalizing l' with
  | nil => simpa [jsSortInsert] using h.trans (List.nil_sublist [c])
  | cons b t ih =>
    by_cases hc : cmp c b ≤ 0
    · simp only [jsSortInsert, if_pos hc]
      exact h.trans (List.sublist_cons_self c (b :: t))
    · simp only [jsSortInsert, if_neg hc]
      cases h with
      | cons _ h => exact (ih h).cons b
      | cons₂ _ h => exact (ih h).cons₂ b

theorem jsSortInsert_stable {cmp : α → α → ℚ} {a b : α} (hab : cmp a b ≤ 0) :
    ∀ {l : List α}, [b] <+ l → [a, b] <+ jsSortInsert cmp a l := by
  intro l hb
  induction l with
  | nil => cases hb
  | cons c t ih =>
    by_cases hc : cmp a c ≤ 0
    · simp only [jsSortInsert, if_pos hc]
      exact hb.cons₂ a
    · simp only [jsSortInsert, if_neg hc]
      cases hb with
      | cons _ h => exact (ih h).cons c
      | cons₂ _ h =>
        exact absurd hab hc

theorem jsSort_eq_self_of_ties {cmp : α → α → ℚ} :
    ∀ {l : List α}, (∀ x ∈ l, ∀ y ∈ l, cmp x y ≤ 0) → jsSort cmp l = l := by
  intro l h
  induction l with
  | nil => rfl
  | cons a t ih =>
    have ht : jsSort cmp t = t :=
      ih (fun x hx y hy => h x (mem_cons_of_mem a hx) y (mem_cons_of_mem a hy))
    simp only [jsSort, ht]
    cases t with
    | nil => rfl
    | cons b t' =>
      have : cmp a b ≤ 0 := h a (mem_cons_self a _) b (mem_cons_of_mem a (mem_cons_self b t'))
      simp [jsSortInsert, this]

theorem jsSort_stable {cmp : α → α → ℚ} {a b : α} (hab : cmp a b ≤ 0) :
    ∀ {l : List α}, [a, b] <+ l → [a, b] <+ jsSort cmp l := by
  intro l h
  induction l with
  | nil => cases h
  | cons c t ih =>
    cases h with
    | cons _ h => exact sublist_jsSortInsert c (ih h)
    | cons₂ _ h =>
      refine jsSortInsert_stable hab ?_
      have hb : b ∈ jsSort cmp t := mem_jsSort.mpr (h.mem (mem_cons_self b []))
      exact singleton_sublist.mpr hb

/-! ### Fit and rectangle lemmas -/

theorem fitsB_iff {rw rh : ℚ} {r : FreeRectangle} :
    fitsB rw rh r = true ↔ rw ≤ r.width ∧ rh ≤ r.height := by
  simp [fitsB]

theorem findFit_eq_none {rw rh : ℚ} :
    ∀ {l : List FreeRectangle}, findFit rw rh l = none ↔ ∀ r ∈ l, fitsB rw rh r = false := by
  intro l
  induction l with
  | nil => simp [findFit]
  | cons r rest ih =>
    by_cases h : fitsB rw rh r
    · simp [findFit, h]
    · simp only [Bool.not_eq_true] at h
      simp [findFit, h, ih]

theorem findFit_eq_some {rw rh : ℚ} :
    ∀ {l before after : List FreeRectangle} {r : FreeRectangle},
      findFit rw rh l = some (before, r, after) →
      l = before ++ r :: after ∧ fitsB rw rh r = true := by
  intro l
  induction l with
  | nil => intro before after r h; cases h
  | cons c rest ih =>
    intro before after r h
    by_cases hc : fitsB rw rh c
    · simp only [findFit, if_pos hc, Option.some.injEq, Prod.mk.injEq] at h
      obtain ⟨h1, h2, h3⟩ := h
      subst h1; subst h2; subst h3
      exact ⟨rfl, hc⟩
    · simp only [Bool.not_eq_true] at hc
      simp only [findFit, hc, Bool.false_eq_true, if_false, Option.map_eq_some'] at h
      obtain ⟨⟨b', r', a'⟩, hfind, heq⟩ := h
      simp only [Prod.mk.injEq] at heq
      obtain ⟨h1, h2, h3⟩ := heq
      obtain ⟨hl, hf⟩ := ih hfind
      subst h2; subst h3
      constructor
      · rw [← h1]; simp [hl]
      · exact hf

theorem subRect_trans {a b c : FreeRectangle} (h1 : subRect a b) (h2 : subRect b c) :
    subRect a c := by
  obtain ⟨x1, y1, w1, h1'⟩ := h1
  obtain ⟨x2, y2, w2, h2'⟩ := h2
  exact ⟨x2.trans x1, y2.trans y1, w1.trans w2, h1'.trans h2'⟩

theorem subRect_refl (r : FreeRectangle) : subRect r r :=
  ⟨le_refl _, le_refl _, le_refl _, le_refl _⟩

theorem subRect_dims {a b : FreeRectangle} (h : subRect a b) :
    a.width ≤ b.width ∧ a.height ≤ b.height := by
  obtain ⟨x1, y1, w1, h1⟩ := h
  constructor <;> linarith

theorem guillotineChildren_subRect {rect : FreeRectangle} {rw rh : ℚ}
    (hrw : 0 ≤ rw) (hrh : 0 ≤ rh) (hfit : rh ≤ rect.height) :
    ∀ c ∈ guillotineChildren rect rw rh, subRect c rect := by
  intro c hc
  simp only [guillotineChildren, mem_append] at hc
  rcases hc with hc | hc
  · split at hc
    · simp only [mem_singleton] at hc
      subst hc
      simp only [subRect]
      refine ⟨by linarith, le_refl _, by ring_nf; linarith, by linarith⟩
    · cases hc
  · split at hc
    · simp only [mem_singleton] at hc
      subst hc
      simp only [subRect]
      refine ⟨le_refl _, by linarith, le_refl _, by ring_nf; linarith⟩
    · cases hc

theorem maxRectsChildren_subRect {rect : FreeRectangle} {rw rh : ℚ}
    (hrw : 0 ≤ rw) (hrh : 0 ≤ rh) :
    ∀ c ∈ maxRectsChildren rect rw rh, subRect c rect := by
  intro c hc
  simp only [maxRectsChildren, mem_append] at hc
  rcases hc with hc | hc
  · split at hc
    · simp only [mem_singleton] at hc
      subst hc
      simp only [subRect]
      refine ⟨by linarith, le_refl _, by ring_nf; linarith, le_refl _⟩
    · cases hc
  · split at hc
    · simp only [mem_singleton] at hc
      subst hc
      simp only [subRect]
      refine ⟨le_refl _, by linarith, le_refl _, by ring_nf; linarith⟩
    · cases hc

/-- Invariant preservation along a fold. -/
theorem foldl_invariant {σ α : Type _} (step : σ → α → σ) (Inv : σ → Prop)
    (P : α → Prop) (hstep : ∀ s a, Inv s → P a → Inv (step s a)) :
    ∀ (l : List α) (s : σ), Inv s → (∀ a ∈ l, P a) → Inv (l.foldl step s) := by
  intro l
  induction l with
  | nil => intro s hs _; exact hs
  | cons a t ih =>
    intro s hs hP
    exact ih (step s a)
      (hstep s a hs (hP a (mem_cons_self a t)))
      (fun x hx => hP x (mem_cons_of_mem a hx))

/-! ### Membership lemmas for the MaxRects store operations -/

theorem selBetter_cases {rw rh : ℚ} {j : ℕ} {r : FreeRectangle}
    {best out : Option (ℕ × FreeRectangle × ℚ × ℚ)}
    (h : selBetter rw rh j r best = out) :
    best = out ∨ out = some (j, r, min (r.width - rw) (r.height - rh),
      max (r.width - rw) (r.height - rh)) := by
  cases best with
  | none => exact Or.inr h.symm
  | some b =>
    obtain ⟨bi, br, bssf, blsf⟩ := b
    simp only [selBetter] at h
    split at h
    · exact Or.inr h.symm
    · exact Or.inl h

theorem selectAux_some_cases {rw rh : ℚ} :
    ∀ (l : List FreeRectangle) (j : ℕ) (best out),
      selectAux rw rh j best l = some out →
      best = some out ∨ (out.2.1 ∈ l ∧ fitsB rw rh out.2.1 = true) := by
  intro l
  induction l with
  | nil => intro j best out h; exact Or.inl h
  | cons r rest ih =>
    intro j best out h
    simp only [selectAux] at h
    rcases ih _ _ _ h with hb | hmem
    · by_cases hf : fitsB rw rh r
      · simp only [if_pos hf] at hb
        rcases selBetter_cases hb with hb | hb
        · exact Or.inl hb
        · simp only [Option.some.injEq] at hb
          exact Or.inr ⟨by rw [hb]; exact mem_cons_self r rest, by rw [hb]; exact hf⟩
      · simp only [Bool.not_eq_true] at hf
        simp only [hf, Bool.false_eq_true, if_false] at hb
        exact Or.inl hb
    · exact Or.inr ⟨mem_cons_of_mem r hmem.1, hmem.2⟩

theorem selectBestRect_mem_fits {rw rh : ℚ} {rects : List FreeRectangle}
    {i : ℕ} {r : FreeRectangle} (h : selectBestRect rw rh rects = some (i, r)) :
    r ∈ rects ∧ fitsB rw rh r = true := by
  simp only [selectBestRect, Option.map_eq_some'] at h
  obtain ⟨out, hsel, hout⟩ := h
  rcases selectAux_some_cases rects 0 none out hsel with hb | hmem
  · cases hb
  · have : out.2.1 = r := by
      have := congrArg Prod.snd hout
      simpa using this
    rw [this] at hmem
    exact hmem

theorem mem_addIfNotContained_fold :
    ∀ (rs st : List FreeRectangle) (x : FreeRectangle),
      x ∈ rs.foldl addIfNotContained st → x ∈ st ∨ x ∈ rs := by
  intro rs
  induction rs with
  | nil => intro st x h; exact Or.inl h
  | cons r rest ih =>
    intro st x h
    simp only [foldl_cons] at h
    rcases ih _ _ h with h1 | h1
    · simp only [addIfNotContained] at h1
      split at h1
      · exact Or.inl h1
      · simp only [mem_append, mem_singleton] at h1
        rcases h1 with h1 | h1
        · exact Or.inl h1
        · exact Or.inr (h1 ▸ mem_cons_self r rest)
    · exact Or.inr (mem_cons_of_mem r h1)

theorem pruneIdx_sublist (l : List FreeRectangle) (i : ℕ) : pruneIdx l i <+ l := by
  unfold pruneIdx
  split
  · exact eraseIdx_sublist l i
  · exact Sublist.refl l

theorem pruneDown_sublist : ∀ (n : ℕ) (l : List FreeRectangle), pruneDown l n <+ l := by
  intro n
  induction n with
  | zero => intro l; exact Sublist.refl l
  | succ m ih =>
    intro l
    exact (ih (pruneIdx l m)).trans (pruneIdx_sublist l m)

theorem mem_pruneContained {l : List FreeRectangle} {x : FreeRectangle}
    (h : x ∈ pruneContained l) : x ∈ l :=
  (pruneDown_sublist l.length l).mem h

/-! ### Containment (claim C1) invariants -/

theorem eff_nonneg {p : Photo} (hw : 0 ≤ p.size.width) (hh : 0 ≤ p.size.height) :
    0 ≤ effW p ∧ 0 ≤ effH p := by
  simp only [effW, effH, getRotatedDimensions]
  split <;> exact ⟨by assumption, by assumption⟩

/-- A placement lies inside a given rectangle (used with the printable area). -/
def plInRect (area : FreeRectangle) (pl : PackedPhoto) : Prop :=
  area.x ≤ pl.x ∧ area.y ≤ pl.y ∧
  pl.x + effW pl.photo ≤ area.x + area.width ∧
  pl.y + effH pl.photo ≤ area.y + area.height

def containInv (printable : FreeRectangle) (st : RectPackState) : Prop :=
  (∀ r ∈ st.freeRectangles, subRect r printable) ∧
  (∀ pl ∈ st.packed, plInRect printable pl)

theorem place_plInRect {printable r : FreeRectangle} {photo : Photo} {s : ℚ}
    {page : ℕ} (hsub : subRect r printable) (hs : 0 ≤ s)
    (hfit : fitsB (effW photo + s) (effH photo + s) r = true) :
    plInRect printable ⟨photo, r.x, r.y, page⟩ := by
  obtain ⟨hfw, hfh⟩ := fitsB_iff.mp hfit
  obtain ⟨h1, h2, h3, h4⟩ := hsub
  exact ⟨h1, h2, by simp only; linarith, by simp only; linarith⟩

/-! ### Step-function equation lemmas -/

theorem guillotineStep_some {printable : FreeRectangle} {s : ℚ} {mp : Bool}
    {st : RectPackState} {photo : Photo}
    {before after : List FreeRectangle} {r : FreeRectangle}
    (hfind : findFit ((getRotatedDimensions photo).1 + s)
        ((getRotatedDimensions photo).2 + s) st.freeRectangles =
      some (before, r, after)) :
    guillotineStep printable s mp st photo =
      { packed := st.packed ++ [⟨photo, r.x, r.y, st.currentPage⟩]
        currentPage := st.currentPage
        freeRectangles := jsSort areaCmp (before ++ after ++
          guillotineChildren r ((getRotatedDimensions photo).1 + s)
            ((getRotatedDimensions photo).2 + s)) } := by
  simp only [guillotineStep, hfind]

theorem guillotineStep_none_mp_fit {printable : FreeRectangle} {s : ℚ}
    {st : RectPackState} {photo : Photo}
    (hfind : findFit ((getRotatedDimensions photo).1 + s)
        ((getRotatedDimensions photo).2 + s) st.freeRectangles = none)
    (hfit : fitsB ((getRotatedDimensions photo).1 + s)
        ((getRotatedDimensions photo).2 + s) printable = true) :
    guillotineStep printable s true st photo =
      { packed := st.packed ++ [⟨photo, printable.x, printable.y, st.currentPage + 1⟩]
        currentPage := st.currentPage + 1
        freeRectangles := jsSort areaCmp
          (guillotineChildren printable ((getRotatedDimensions photo).1 + s)
            ((getRotatedDimensions photo).2 + s)) } := by
  simp only [guillotineStep, hfind, hfit, if_true]

theorem guillotineStep_none_mp_nofit {printable : FreeRectangle} {s : ℚ}
    {st : RectPackState} {photo : Photo}
    (hfind : findFit ((getRotatedDimensions photo).1 + s)
        ((getRotatedDimensions photo).2 + s) st.freeRectangles = none)
    (hfit : fitsB ((getRotatedDimensions photo).1 + s)
        ((getRotatedDimensions photo).2 + s) printable = false) :
    guillotineStep printable s true st photo =
      { packed := st.packed
        currentPage := st.currentPage + 1
        freeRectangles := [printable] } := by
  simp only [guillotineStep, hfind, hfit, Bool.false_eq_true, if_false, if_true]

theorem guillotineStep_none_nomp {printable : FreeRectangle} {s : ℚ}
    {st : RectPackState} {photo : Photo}
    (hfind : findFit ((getRotatedDimensions photo).1 + s)
        ((getRotatedDimensions photo).2 + s) st.freeRectangles = none) :
    guillotineStep printable s false st photo = st := by
  simp only [guillotineStep, hfind, Bool.false_eq_true, if_false]

theorem maxRectsStep_some {printable : FreeRectangle} {s : ℚ} {mp : Bool}
    {st : RectPackState} {photo : Photo} {i : ℕ} {r : FreeRectangle}
    (hsel : selectBestRect ((getRotatedDimensions photo).1 + s)
        ((getRotatedDimensions photo).2 + s) st.freeRectangles = some (i, r)) :
    maxRectsStep printable s mp st photo =
      { packed := st.packed ++ [⟨photo, r.x, r.y, st.currentPage⟩]
        currentPage := st.currentPage
        freeRectangles := pruneContained
          ((maxRectsChildren r ((getRotatedDimensions photo).1 + s)
              ((getRotatedDimensions photo).2 + s)).foldl
            addIfNotContained (st.freeRectangles.eraseIdx i)) } := by
  simp only [maxRectsStep, hsel]

theorem maxRectsStep_none_mp_fit {printable : FreeRectangle} {s : ℚ}
    {st : RectPackState} {photo : Photo}
    (hsel : selectBestRect ((getRotatedDimensions photo).1 + s)
        ((getRotatedDimensions photo).2 + s) st.freeRectangles = none)
    (hfit : fitsB ((getRotatedDimensions photo).1 + s)
        ((getRotatedDimensions photo).2 + s) printable = true) :
    maxRectsStep printable s true st photo =
      { packed := st.packed ++ [⟨photo, printable.x, printable.y, st.currentPage + 1⟩]
        currentPage := st.currentPage + 1
        freeRectangles := maxRectsChildren printable
          ((getRotatedDimensions photo).1 + s) ((getRotatedDimensions photo).2 + s) } := by
  simp only [maxRectsStep, hsel, hfit, if_true]

theorem maxRectsStep_none_mp_nofit {printable : FreeRectangle} {s : ℚ}
    {st : RectPackState} {photo : Photo}
    (hsel : selectBestRect ((getRotatedDimensions photo).1 + s)
        ((getRotatedDimensions photo).2 + s) st.freeRectangles = none)
    (hfit : fitsB ((getRotatedDimensions photo).1 + s)
        ((getRotatedDimensions photo).2 + s) printable = false) :
    maxRectsStep printable s true st photo =
      { packed := st.packed
        currentPage := st.currentPage + 1
        freeRectangles := [printable] } := by
  simp only [maxRectsStep, hsel, hfit, Bool.false_eq_true, if_false, if_true]

theorem maxRectsStep_none_nomp {printable : FreeRectangle} {s : ℚ}
    {st : RectPackState} {photo : Photo}
    (hsel : selectBestRect ((getRotatedDimensions photo).1 + s)
        ((getRotatedDimensions photo).2 + s) st.freeRectangles = none) :
    maxRectsStep printable s false st photo = st := by
  simp only [maxRectsStep, hsel, Bool.false_eq_true, if_false]

theorem guillotineStep_contain {printable : FreeRectangle} {s : ℚ} {mp : Bool}
    (hs : 0 ≤ s) (st : RectPackState) (photo : Photo)
    (hInv : containInv printable st)
    (hP : 0 ≤ (getRotatedDimensions photo).1 ∧ 0 ≤ (getRotatedDimensions photo).2) :
    containInv printable (guillotineStep printable s mp st photo) := by
  obtain ⟨hrects, hpacked⟩ := hInv
  obtain ⟨hw, hh⟩ := hP
  have hrw : 0 ≤ (getRotatedDimensions photo).1 + s := by linarith
  have hrh : 0 ≤ (getRotatedDimensions photo).2 + s := by linarith
  cases hfind : findFit ((getRotatedDimensions photo).1 + s)
      ((getRotatedDimensions photo).2 + s) st.freeRectangles with
  | some triple =>
    obtain ⟨before, r, after⟩ := triple
    obtain ⟨hl, hfit⟩ := findFit_eq_some hfind
    have hrmem : r ∈ st.freeRectangles := by
      rw [hl]; exact mem_append_right _ (mem_cons_self _ _)
    have hrsub : subRect r printable := hrects r hrmem
    rw [guillotineStep_some hfind]
    constructor
    · intro x hx
      simp only at hx
      rcases (mem_append.mp (mem_jsSort.mp hx)) with hx | hx
      · rcases mem_append.mp hx with hx | hx
        · exact hrects x (by rw [hl]; exact mem_append_left _ hx)
        · exact hrects x (by rw [hl]; exact mem_append_right _ (mem_cons_of_mem _ hx))
      · exact subRect_trans
          (guillotineChildren_subRect hrw hrh (fitsB_iff.mp hfit).2 x hx) hrsub
    · intro pl hpl
      simp only [mem_append, mem_singleton] at hpl
      rcases hpl with hpl | hpl
      · exact hpacked pl hpl
      · subst hpl
        exact place_plInRect hrsub hs (by simpa [effW, effH] using hfit)
  | none =>
    cases mp with
    | false =>
      rw [guillotineStep_none_nomp hfind]
      exact ⟨hrects, hpacked⟩
    | true =>
      cases hfit : fitsB ((getRotatedDimensions photo).1 + s)
          ((getRotatedDimensions photo).2 + s) printable with
      | true =>
        rw [guillotineStep_none_mp_fit hfind hfit]
        constructor
        · intro x hx
          simp only at hx
          exact guillotineChildren_subRect hrw hrh (fitsB_iff.mp hfit).2 x (mem_jsSort.mp hx)
        · intro pl hpl
          simp only [mem_append, mem_singleton] at hpl
          rcases hpl with hpl | hpl
          · exact hpacked pl hpl
          · subst hpl
            exact place_plInRect (subRect_refl printable) hs
              (by simpa [effW, effH] using hfit)
      | false =>
        rw [guillotineStep_none_mp_nofit hfind hfit]
        constructor
        · intro x hx
          simp only [mem_singleton] at hx
          subst hx
          exact subRect_refl x
        · exact hpacked

theorem maxRectsStep_contain {printable : FreeRectangle} {s : ℚ} {mp : Bool}
    (hs : 0 ≤ s) (st : RectPackState) (photo : Photo)
    (hInv : containInv printable st)
    (hP : 0 ≤ (getRotatedDimensions photo).1 ∧ 0 ≤ (getRotatedDimensions photo).2) :
    containInv printable (maxRectsStep printable s mp st photo) := by
  obtain ⟨hrects, hpacked⟩ := hInv
  obtain ⟨hw, hh⟩ := hP
  have hrw : 0 ≤ (getRotatedDimensions photo).1 + s := by linarith
  have hrh : 0 ≤ (getRotatedDimensions photo).2 + s := by linarith
  cases hsel : selectBestRect ((getRotatedDimensions photo).1 + s)
      ((getRotatedDimensions photo).2 + s) st.freeRectangles with
  | some pair =>
    obtain ⟨i, r⟩ := pair
    obtain ⟨hrmem, hfit⟩ := selectBestRect_mem_fits hsel
    have hrsub : subRect r printable := hrects r hrmem
    rw [maxRectsStep_some hsel]
    constructor
    · intro x hx
      simp only at hx
      rcases mem_addIfNotContained_fold _ _ _ (mem_pruneContained hx) with hx | hx
      · exact hrects x ((eraseIdx_sublist st.freeRectangles i).mem hx)
      · exact subRect_trans (maxRectsChildren_subRect hrw hrh x hx) hrsub
    · intro pl hpl
      simp only [mem_append, mem_singleton] at hpl
      rcases hpl with hpl | hpl
      · exact hpacked pl hpl
      · subst hpl
        exact place_plInRect hrsub hs (by simpa [effW, effH] using hfit)
  | none =>
    cases mp with
    | false =>
      rw [maxRectsStep_none_nomp hsel]
      exact ⟨hrects, hpacked⟩
    | true =>
      cases hfit : fitsB ((getRotatedDimensions photo).1 + s)
          ((getRotatedDimensions photo).2 + s) printable with
      | true =>
        rw [maxRectsStep_none_mp_fit hsel hfit]
        constructor
        · intro x hx
          simp only at hx
          exact maxRectsChildren_subRect hrw hrh x hx
        · intro pl hpl
          simp only [mem_append, mem_singleton] at hpl
          rcases hpl with hpl | hpl
          · exact hpacked pl hpl
          · subst hpl
            exact place_plInRect (subRect_refl printable) hs
              (by simpa [effW, effH] using hfit)
      | false =>
        rw [maxRectsStep_none_mp_nofit hsel hfit]
        constructor
        · intro x hx
          simp only [mem_singleton] at hx
          subst hx
          exact subRect_refl x
        · exact hpacked

theorem rotated_nonneg {p : Photo} (hw : 0 ≤ p.size.width) (hh : 0 ≤ p.size.height) :
    0 ≤ (getRotatedDimensions p).1 ∧ 0 ≤ (getRotatedDimensions p).2 := by
  simp only [getRotatedDimensions]
  split <;> exact ⟨by assumption, by assumption⟩

theorem packPhotosGuillotine_contained (photos : List Photo) (options : PackingOptions)
    (hs : 0 ≤ options.spacing.getD 0)
    (hdims : ∀ p ∈ photos, 0 ≤ p.size.width ∧ 0 ≤ p.size.height) :
    ∀ pl ∈ packPhotosGuillotine photos options, plInRect (getPrintableArea options) pl := by
  have h := foldl_invariant
    (guillotineStep (getPrintableArea options) (options.spacing.getD 0)
      (options.multiPage.getD false))
    (containInv (getPrintableArea options))
    (fun p => 0 ≤ (getRotatedDimensions p).1 ∧ 0 ≤ (getRotatedDimensions p).2)
    (fun st a hI hPa => guillotineStep_contain hs st a hI hPa)
    (jsSort cmpPriorityArea photos)
    ⟨[], 0, [getPrintableArea options]⟩
    ⟨by intro r hr; simp only [mem_singleton] at hr; subst hr; exact subRect_refl _,
     by intro pl hpl; cases hpl⟩
    (by
      intro a ha
      obtain ⟨hw, hh⟩ := hdims a (mem_jsSort.mp ha)
      exact rotated_nonneg hw hh)
  exact h.2

theorem packPhotosMaxRects_contained (photos : List Photo) (options : PackingOptions)
    (hs : 0 ≤ options.spacing.getD 0)
    (hdims : ∀ p ∈ photos, 0 ≤ p.size.width ∧ 0 ≤ p.size.height) :
    ∀ pl ∈ packPhotosMaxRects photos options, plInRect (getPrintableArea options) pl := by
  have h := foldl_invariant
    (maxRectsStep (getPrintableArea options) (options.spacing.getD 0)
      (options.multiPage.getD false))
    (containInv (getPrintableArea options))
    (fun p => 0 ≤ (getRotatedDimensions p).1 ∧ 0 ≤ (getRotatedDimensions p).2)
    (fun st a hI hPa => maxRectsStep_contain hs st a hI hPa)
    (jsSort cmpPriorityArea photos)
    ⟨[], 0, [getPrintableArea options]⟩
    ⟨by intro r hr; simp only [mem_singleton] at hr; subst hr; exact subRect_refl _,
     by intro pl hpl; cases hpl⟩
    (by
      intro a ha
      obtain ⟨hw, hh⟩ := hdims a (mem_jsSort.mp ha)
      exact rotated_nonneg hw hh)
  exact h.2

theorem plInRect_printable {options : PackingOptions} {pl : PackedPhoto}
    (h : plInRect (getPrintableArea options) pl) : insidePrintable options pl := by
  simp only [plInRect, getPrintableArea] at h
  obtain ⟨h1, h2, h3, h4⟩ := h
  exact ⟨h1, h2, by linarith, by linarith⟩

/-! ### Claim C1 -/

/-- C1 (amended): for the guillotine and maxrects algorithms, under a valid
configuration (non-negative spacing) and valid photos (non-negative
dimensions), every placement returned by `packPhotos` lies inside the
printable area of its page: `margin_left ≤ x`, `margin_top ≤ y`,
`x + effective_width ≤ page_width − margin_right` and
`y + effective_height ≤ page_height − margin_bottom`.  The shelf algorithm
does not satisfy this (see the counterexample). -/
theorem C1_containment_guillotine_maxrects
    (photos : List Photo) (options : PackingOptions) (alg : String)
    (halg : alg = "guillotine" ∨ alg = "maxrects")
    (hs : 0 ≤ options.spacing.getD 0)
    (hdims : ∀ p ∈ photos, 0 ≤ p.size.width ∧ 0 ≤ p.size.height) :
    ∀ pl ∈ packPhotos photos alg options, insidePrintable options pl := by
  intro pl hpl
  rcases halg with halg | halg <;> subst halg
  · simp only [packPhotos, if_pos rfl] at hpl
    exact plInRect_printable (packPhotosGuillotine_contained photos options hs hdims pl hpl)
  · have h1 : ("maxrects" : String) ≠ "guillotine" := by decide
    have h2 : ("maxrects" : String) ≠ "shelf" := by decide
    simp only [packPhotos, if_neg h1, if_neg h2, if_pos rfl] at hpl
    exact plInRect_printable (packPhotosMaxRects_contained photos options hs hdims pl hpl)

/-- C1 counterexample: the claim quantifies over all three algorithms, but
the shelf driver emits a placement that overflows the right margin when a
photo is wider than the printable area (the source places after a shelf
advance without re-checking the width). -/
theorem C1_shelf_overflow_counterexample :
    ∃ pl ∈ packPhotos [⟨1, "p", "", ⟨"s", 5, 2⟩, 0, 0, 0, none, none⟩] "shelf"
        ⟨4, 6, none, none, none, none, none, none⟩,
      ¬ insidePrintable ⟨4, 6, none, none, none, none, none, none⟩ pl := by
  refine ⟨⟨⟨1, "p", "", ⟨"s", 5, 2⟩, 0, 0, 0, none, none⟩, 0, 0, 0⟩, ?_, ?_⟩
  · simp only [packPhotos]
    rw [if_neg (by decide : ¬("shelf" : String) = "guillotine")]
    norm_num [packPhotosShelf, jsSort, jsSortInsert, cmpPriorityHeight,
      getRotatedDimensions, getPrintableArea, shelfStep, shelfAdv, shelfPlace]
  · simp only [insidePrintable, effW, effH, getRotatedDimensions]
    norm_num

/-- Witness for `C1_containment_guillotine_maxrects` at a concrete run. -/
theorem C1_containment_witness :
    insidePrintable ⟨4, 6, none, none, none, none, none, none⟩
      ⟨⟨1, "p", "", ⟨"s", 2, 2⟩, 0, 0, 0, none, none⟩, 0, 0, 0⟩ := by
  refine C1_containment_guillotine_maxrects
    [⟨1, "p", "", ⟨"s", 2, 2⟩, 0, 0, 0, none, none⟩]
    ⟨4, 6, none, none, none, none, none, none⟩ "guillotine" (Or.inl rfl)
    (by norm_num) ?_ _ ?_
  · intro p hp
    simp only [mem_singleton] at hp
    subst hp
    norm_num
  · simp only [packPhotos, if_pos rfl]
    norm_num [packPhotosGuillotine, jsSort, jsSortInsert, cmpPriorityArea,
      getRotatedDimensions, getPrintableArea, guillotineStep, findFit, fitsB,
      guillotineChildren, areaCmp]

/-! ### Claim C3 -/

/-- C3 (amended): the source has no error channel; an algorithm selector
outside `{guillotine, shelf, maxrects}` falls through the `switch` default
and returns the MaxRects placements instead of an `UnknownAlgorithm` error
with no placements. -/
theorem C3_unknown_falls_back_to_maxrects
    (photos : List Photo) (options : PackingOptions) (alg : String)
    (h1 : alg ≠ "guillotine") (h2 : alg ≠ "shelf") (h3 : alg ≠ "maxrects") :
    packPhotos photos alg options = packPhotosMaxRects photos options := by
  simp only [packPhotos, if_neg h1, if_neg h2, if_neg h3]

/-- C3 counterexample: with the unknown selector `"diagonal"` the claim
promises no placements, but the source returns the MaxRects packing, which
is non-empty here. -/
theorem C3_unknown_algorithm_counterexample :
    packPhotos [⟨1, "p", "", ⟨"s", 2, 2⟩, 0, 0, 0, none, none⟩] "diagonal"
        ⟨4, 4, none, none, none, none, none, none⟩ =
      [⟨⟨1, "p", "", ⟨"s", 2, 2⟩, 0, 0, 0, none, none⟩, 0, 0, 0⟩] ∧
    packPhotos [⟨1, "p", "", ⟨"s", 2, 2⟩, 0, 0, 0, none, none⟩] "diagonal"
        ⟨4, 4, none, none, none, none, none, none⟩ ≠ [] := by
  constructor
  · simp only [packPhotos]
    rw [if_neg (by decide : ¬("diagonal" : String) = "guillotine"),
        if_neg (by decide : ¬("diagonal" : String) = "shelf"),
        if_neg (by decide : ¬("diagonal" : String) = "maxrects")]
    norm_num [packPhotosMaxRects, jsSort, jsSortInsert, cmpPriorityArea,
      getRotatedDimensions, getPrintableArea, maxRectsStep, selectBestRect,
      selectAux, selBetter, fitsB, maxRectsChildren, addIfNotContained, isContainedIn,
      pruneContained, pruneDown, pruneIdx, List.range, List.range.loop]
  · simp only [packPhotos]
    rw [if_neg (by decide : ¬("diagonal" : String) = "guillotine"),
        if_neg (by decide : ¬("diagonal" : String) = "shelf"),
        if_neg (by decide : ¬("diagonal" : String) = "maxrects")]
    norm_num [packPhotosMaxRects, jsSort, jsSortInsert, cmpPriorityArea,
      getRotatedDimensions, getPrintableArea, maxRectsStep, selectBestRect,
      selectAux, selBetter, fitsB, maxRectsChildren, addIfNotContained, isContainedIn,
      pruneContained, pruneDown, pruneIdx, List.range, List.range.loop]

/-- Witness for `C3_unknown_falls_back_to_maxrects`. -/
theorem C3_unknown_witness :
    packPhotos [] "diagonal" ⟨4, 4, none, none, none, none, none, none⟩ =
      packPhotosMaxRects [] ⟨4, 4, none, none, none, none, none, none⟩ :=
  C3_unknown_falls_back_to_maxrects [] ⟨4, 4, none, none, none, none, none, none⟩
    "diagonal" (by decide) (by decide) (by decide)

/-! ### Claim C10 -/

/-- C10 (confirmed): `expandPhotosByQuantity` replaces each photo, in input
order, by `quantityOf photo` consecutive copies whose `i`-th copy has id
`photo.id + i·0.0001` and all other fields unchanged; `quantityOf` equals the
stated `quantity` when it is a positive integer and `1` when the field is
absent or `0` (so a photo with quantity 0 still yields one copy). -/
theorem C10_expand_by_quantity (photos : List Photo) :
    (expandPhotosByQuantity photos = photos.flatMap (fun photo =>
      (List.range (quantityOf photo)).map
        (fun i => { photo with id := photo.id + (i : ℚ) * (1 / 10000) }))) ∧
    (∀ p : Photo, ∀ k : ℕ, p.quantity = some k → 0 < k → quantityOf p = k) ∧
    (∀ p : Photo, p.quantity = none ∨ p.quantity = some 0 → quantityOf p = 1) ∧
    (∀ p : Photo, (expandPhotosByQuantity [p]).length = quantityOf p) := by
  refine ⟨rfl, ?_, ?_, ?_⟩
  · intro p k hk hpos
    simp only [quantityOf, hk]
    rw [if_neg (by omega : ¬ k = 0)]
  · intro p hp
    rcases hp with hp | hp <;> simp [quantityOf, hp]
  · intro p
    simp only [expandPhotosByQuantity, flatMap_cons, flatMap_nil, append_nil,
      length_map, length_range]

/-- Witness for `C10_expand_by_quantity` at a concrete photo list. -/
theorem C10_expand_witness :
    expandPhotosByQuantity [⟨1, "p", "", ⟨"s", 2, 2⟩, 0, 0, 0, none, some 2⟩] =
      [⟨1, "p", "", ⟨"s", 2, 2⟩, 0, 0, 0, none, some 2⟩,
       ⟨1 + 1 / 10000, "p", "", ⟨"s", 2, 2⟩, 0, 0, 0, none, some 2⟩] := by
  rw [(C10_expand_by_quantity [⟨1, "p", "", ⟨"s", 2, 2⟩, 0, 0, 0, none, some 2⟩]).1]
  norm_num [quantityOf, List.range, List.range.loop]

/-! ### Claim C4 -/

theorem fitsB_false_of_degenerate {rw rh : ℚ} {r : FreeRectangle}
    (hdeg : r.width ≤ 0 ∨ r.height ≤ 0) (hrw : 0 < rw) (hrh : 0 < rh) :
    fitsB rw rh r = false := by
  rw [Bool.eq_false_iff]
  intro h
  obtain ⟨h1, h2⟩ := fitsB_iff.mp h
  rcases hdeg with hd | hd <;> linarith

def emptyInv (printable : FreeRectangle) (st : RectPackState) : Prop :=
  st.packed = [] ∧ st.freeRectangles = [printable]

theorem guillotineStep_empty {printable : FreeRectangle} {s : ℚ} {mp : Bool}
    (hdeg : printable.width ≤ 0 ∨ printable.height ≤ 0) (hs : 0 ≤ s)
    (st : RectPackState) (photo : Photo)
    (hInv : emptyInv printable st)
    (hP : 0 < (getRotatedDimensions photo).1 ∧ 0 < (getRotatedDimensions photo).2) :
    emptyInv printable (guillotineStep printable s mp st photo) := by
  obtain ⟨hpk, hfr⟩ := hInv
  have hrw : 0 < (getRotatedDimensions photo).1 + s := by linarith [hP.1]
  have hrh : 0 < (getRotatedDimensions photo).2 + s := by linarith [hP.2]
  have hfitp : fitsB ((getRotatedDimensions photo).1 + s)
      ((getRotatedDimensions photo).2 + s) printable = false :=
    fitsB_false_of_degenerate hdeg hrw hrh
  have hfind : findFit ((getRotatedDimensions photo).1 + s)
      ((getRotatedDimensions photo).2 + s) st.freeRectangles = none := by
    rw [hfr]
    apply findFit_eq_none.mpr
    intro r hr
    simp only [mem_singleton] at hr
    subst hr
    exact hfitp
  cases mp with
  | false => rw [guillotineStep_none_nomp hfind]; exact ⟨hpk, hfr⟩
  | true => rw [guillotineStep_none_mp_nofit hfind hfitp]; exact ⟨hpk, rfl⟩

theorem selectBestRect_none_of_unfit {rw rh : ℚ} {rects : List FreeRectangle}
    (h : ∀ r ∈ rects, fitsB rw rh r = false) :
    selectBestRect rw rh rects = none := by
  have : ∀ (l : List FreeRectangle) (j : ℕ), (∀ r ∈ l, fitsB rw rh r = false) →
      selectAux rw rh j none l = none := by
    intro l
    induction l with
    | nil => intro j _; rfl
    | cons r rest ih =>
      intro j hl
      simp only [selectAux, hl r (mem_cons_self r rest), Bool.false_eq_true, if_false]
      exact ih (j + 1) (fun x hx => hl x (mem_cons_of_mem r hx))
  simp only [selectBestRect, this rects 0 h, Option.map_none']

theorem maxRectsStep_empty {printable : FreeRectangle} {s : ℚ} {mp : Bool}
    (hdeg : printable.width ≤ 0 ∨ printable.height ≤ 0) (hs : 0 ≤ s)
    (st : RectPackState) (photo : Photo)
    (hInv : emptyInv printable st)
    (hP : 0 < (getRotatedDimensions photo).1 ∧ 0 < (getRotatedDimensions photo).2) :
    emptyInv printable (maxRectsStep printable s mp st photo) := by
  obtain ⟨hpk, hfr⟩ := hInv
  have hrw : 0 < (getRotatedDimensions photo).1 + s := by linarith [hP.1]
  have hrh : 0 < (getRotatedDimensions photo).2 + s := by linarith [hP.2]
  have hfitp : fitsB ((getRotatedDimensions photo).1 + s)
      ((getRotatedDimensions photo).2 + s) printable = false :=
    fitsB_false_of_degenerate hdeg hrw hrh
  have hsel : selectBestRect ((getRotatedDimensions photo).1 + s)
      ((getRotatedDimensions photo).2 + s) st.freeRectangles = none := by
    rw [hfr]
    apply selectBestRect_none_of_unfit
    intro r hr
    simp only [mem_singleton] at hr
    subst hr
    exact hfitp
  cases mp with
  | false => rw [maxRectsStep_none_nomp hsel]; exact ⟨hpk, hfr⟩
  | true => rw [maxRectsStep_none_mp_nofit hsel hfitp]; exact ⟨hpk, rfl⟩

/-- C4 (amended): the source performs no geometry validation and has no
error channel.  When the margins leave a printable width or height ≤ 0,
guillotine and maxrects do return no placements (but no error value); the
shelf driver with `multiPage` can even emit placements (see the
counterexample). -/
theorem C4_degenerate_area_no_placements
    (photos : List Photo) (options : PackingOptions)
    (hdeg : (getPrintableArea options).width ≤ 0 ∨ (getPrintableArea options).height ≤ 0)
    (hs : 0 ≤ options.spacing.getD 0)
    (hdims : ∀ p ∈ photos, 0 < p.size.width ∧ 0 < p.size.height) :
    packPhotosGuillotine photos options = [] ∧ packPhotosMaxRects photos options = [] := by
  have hP : ∀ p ∈ jsSort cmpPriorityArea photos,
      0 < (getRotatedDimensions p).1 ∧ 0 < (getRotatedDimensions p).2 := by
    intro p hp
    obtain ⟨hw, hh⟩ := hdims p (mem_jsSort.mp hp)
    simp only [getRotatedDimensions]
    split <;> exact ⟨by assumption, by assumption⟩
  constructor
  · have h := foldl_invariant
      (guillotineStep (getPrintableArea options) (options.spacing.getD 0)
        (options.multiPage.getD false))
      (emptyInv (getPrintableArea options))
      (fun p => 0 < (getRotatedDimensions p).1 ∧ 0 < (getRotatedDimensions p).2)
      (fun st a hI hPa => guillotineStep_empty hdeg hs st a hI hPa)
      (jsSort cmpPriorityArea photos)
      ⟨[], 0, [getPrintableArea options]⟩ ⟨rfl, rfl⟩ hP
    exact h.1
  · have h := foldl_invariant
      (maxRectsStep (getPrintableArea options) (options.spacing.getD 0)
        (options.multiPage.getD false))
      (emptyInv (getPrintableArea options))
      (fun p => 0 < (getRotatedDimensions p).1 ∧ 0 < (getRotatedDimensions p).2)
      (fun st a hI hPa => maxRectsStep_empty hdeg hs st a hI hPa)
      (jsSort cmpPriorityArea photos)
      ⟨[], 0, [getPrintableArea options]⟩ ⟨rfl, rfl⟩ hP
    exact h.1

/-- C4 counterexample: margins eat the whole page height (printable height
0), yet the shelf driver with `multiPage` still returns a placement — so
`pack` neither fails with `InvalidGeometry` nor returns no placements. -/
theorem C4_shelf_places_despite_degenerate_area :
    (getPrintableArea ⟨10, 2, some 1, none, some 1, none, none, some true⟩).height = 0 ∧
    packPhotos [⟨1, "p", "", ⟨"s", 2, 2⟩, 0, 0, 0, none, none⟩] "shelf"
        ⟨10, 2, some 1, none, some 1, none, none, some true⟩ =
      [⟨⟨1, "p", "", ⟨"s", 2, 2⟩, 0, 0, 0, none, none⟩, 0, 1, 1⟩] := by
  constructor
  · norm_num [getPrintableArea]
  · simp only [packPhotos]
    rw [if_neg (by decide : ¬("shelf" : String) = "guillotine")]
    norm_num [packPhotosShelf, jsSort, jsSortInsert, cmpPriorityHeight,
      getRotatedDimensions, getPrintableArea, shelfStep, shelfAdv, shelfPlace]

/-- Witness for `C4_degenerate_area_no_placements`. -/
theorem C4_degenerate_witness :
    packPhotosGuillotine [⟨1, "p", "", ⟨"s", 2, 2⟩, 0, 0, 0, none, none⟩]
        ⟨10, 2, some 1, none, some 1, none, none, some true⟩ = [] ∧
    packPhotosMaxRects [⟨1, "p", "", ⟨"s", 2, 2⟩, 0, 0, 0, none, none⟩]
        ⟨10, 2, some 1, none, some 1, none, none, some true⟩ = [] := by
  refine C4_degenerate_area_no_placements _ _ ?_ (by norm_num) ?_
  · right
    norm_num [getPrintableArea]
  · intro p hp
    simp only [mem_singleton] at hp
    subst hp
    norm_num

/-! ### Claim C8 -/

/-- C8 (confirmed): the preparatory sorts are stable on full ties.  If `a`
appears before `b` in the input and the comparator ties (equal priority and
equal secondary key — effective area for guillotine/maxrects, effective
height for shelf), then `a` still appears before `b` in the sorted sequence;
in particular a list in which all pairs tie (e.g. all-identical priority-zero
items) is left in its original order by both sorts. -/
theorem C8_sort_stable_on_ties (l : List Photo) (a b : Photo) :
    ((a.priority.getD 0 = b.priority.getD 0 →
      effW a * effH a = effW b * effH b →
      [a, b] <+ l → [a, b] <+ jsSort cmpPriorityArea l) ∧
     (a.priority.getD 0 = b.priority.getD 0 →
      effH a = effH b →
      [a, b] <+ l → [a, b] <+ jsSort cmpPriorityHeight l)) ∧
    ((∀ x ∈ l, ∀ y ∈ l, x.priority.getD 0 = y.priority.getD 0 ∧
        effW x * effH x = effW y * effH y ∧ effH x = effH y) →
      jsSort cmpPriorityArea l = l ∧ jsSort cmpPriorityHeight l = l) := by
  constructor
  · constructor
    · intro hp harea hsub
      apply jsSort_stable _ hsub
      simp only [cmpPriorityArea, if_neg (by simp [hp] : ¬ a.priority.getD 0 ≠ b.priority.getD 0)]
      simp only [effW, effH] at harea
      rw [harea]
      simp
    · intro hp hht hsub
      apply jsSort_stable _ hsub
      simp only [cmpPriorityHeight, if_neg (by simp [hp] : ¬ a.priority.getD 0 ≠ b.priority.getD 0)]
      simp only [effW, effH] at hht
      rw [hht]
      simp
  · intro hties
    constructor
    · apply jsSort_eq_self_of_ties
      intro x hx y hy
      obtain ⟨hp, harea, _⟩ := hties x hx y hy
      simp only [cmpPriorityArea, if_neg (by simp [hp] : ¬ x.priority.getD 0 ≠ y.priority.getD 0)]
      simp only [effW, effH] at harea
      rw [harea]
      simp
    · apply jsSort_eq_self_of_ties
      intro x hx y hy
      obtain ⟨hp, _, hht⟩ := hties x hx y hy
      simp only [cmpPriorityHeight, if_neg (by simp [hp] : ¬ x.priority.getD 0 ≠ y.priority.getD 0)]
      simp only [effW, effH] at hht
      rw [hht]
      simp

/-- Witness for `C8_sort_stable_on_ties` on a two-element tied list. -/
theorem C8_sort_stable_witness :
    [⟨1, "a", "", ⟨"s", 2, 2⟩, 0, 0, 0, none, none⟩,
     ⟨2, "b", "", ⟨"s", 2, 2⟩, 0, 0, 0, none, none⟩] <+
      jsSort cmpPriorityArea
        [⟨1, "a", "", ⟨"s", 2, 2⟩, 0, 0, 0, none, none⟩,
         ⟨2, "b", "", ⟨"s", 2, 2⟩, 0, 0, 0, none, none⟩] :=
  ((C8_sort_stable_on_ties
      [⟨1, "a", "", ⟨"s", 2, 2⟩, 0, 0, 0, none, none⟩,
       ⟨2, "b", "", ⟨"s", 2, 2⟩, 0, 0, 0, none, none⟩]
      ⟨1, "a", "", ⟨"s", 2, 2⟩, 0, 0, 0, none, none⟩
      ⟨2, "b", "", ⟨"s", 2, 2⟩, 0, 0, 0, none, none⟩).1.1
    rfl (by norm_num [effW, effH, getRotatedDimensions]) (Sublist.refl _))

/-! ### Claim C7 -/

/-- Lexicographic "at least as good" order on (short side fit, long side
fit, index) triples; lower is better, lowest index wins full ties. -/
def selLE (a b : ℚ × ℚ × ℕ) : Prop :=
  a.1 < b.1 ∨ (a.1 = b.1 ∧ (a.2.1 < b.2.1 ∨ (a.2.1 = b.2.1 ∧ a.2.2 ≤ b.2.2)))

theorem selLE_refl (a : ℚ × ℚ × ℕ) : selLE a a := by
  simp [selLE]

theorem selLE_trans {a b c : ℚ × ℚ × ℕ} (h1 : selLE a b) (h2 : selLE b c) :
    selLE a c := by
  rcases h1 with h1 | ⟨e1, h1⟩
  · rcases h2 with h2 | ⟨e2, _⟩
    · exact Or.inl (h1.trans h2)
    · exact Or.inl (e2 ▸ h1)
  · rcases h2 with h2 | ⟨e2, h2⟩
    · exact Or.inl (e1 ▸ h2)
    · refine Or.inr ⟨e1.trans e2, ?_⟩
      rcases h1 with h1 | ⟨f1, h1⟩
      · rcases h2 with h2 | ⟨f2, _⟩
        · exact Or.inl (h1.trans h2)
        · exact Or.inl (f2 ▸ h1)
      · rcases h2 with h2 | ⟨f2, h2⟩
        · exact Or.inl (f1 ▸ h2)
        · exact Or.inr ⟨f1.trans f2, h1.trans h2⟩


/-- The `(shortSideFit, longSideFit, index)` key of a scan accumulator. -/
def keyOf (x : ℕ × FreeRectangle × ℚ × ℚ) : ℚ × ℚ × ℕ := (x.2.2.1, x.2.2.2, x.1)

/-- The accumulator is well-formed: its index is below `j` and its fit
values are those of its rectangle, which fits. -/
def goodBest (rw rh : ℚ) (j : ℕ) : Option (ℕ × FreeRectangle × ℚ × ℚ) → Prop
  | none => True
  | some (bi, br, s1, s2) => bi < j ∧ s1 = min (br.width - rw) (br.height - rh) ∧
      s2 = max (br.width - rw) (br.height - rh) ∧ fitsB rw rh br = true

theorem selBetter_isSome {rw rh : ℚ} {j : ℕ} {r : FreeRectangle}
    (best : Option (ℕ × FreeRectangle × ℚ × ℚ)) :
    ∃ y, selBetter rw rh j r best = some y := by
  cases best with
  | none => exact ⟨_, rfl⟩
  | some b =>
    obtain ⟨bi, br, bssf, blsf⟩ := b
    simp only [selBetter]
    split
    · exact ⟨_, rfl⟩
    · exact ⟨_, rfl⟩

theorem selBetter_good {rw rh : ℚ} {j : ℕ} {r : FreeRectangle}
    {best : Option (ℕ × FreeRectangle × ℚ × ℚ)} {y : ℕ × FreeRectangle × ℚ × ℚ}
    (hf : fitsB rw rh r = true) (hg : goodBest rw rh j best)
    (hy : selBetter rw rh j r best = some y) : goodBest rw rh (j + 1) (some y) := by
  rcases selBetter_cases hy with hb | hb
  · subst hb
    obtain ⟨bi, br, s1, s2⟩ := y
    obtain ⟨h1, h2, h3, h4⟩ := hg
    exact ⟨Nat.lt_succ_of_lt h1, h2, h3, h4⟩
  · simp only [Option.some.injEq] at hb
    subst hb
    exact ⟨Nat.lt_succ_self j, rfl, rfl, hf⟩

theorem selBetter_le_old {rw rh : ℚ} {j : ℕ} {r : FreeRectangle}
    {b y : ℕ × FreeRectangle × ℚ × ℚ}
    (hy : selBetter rw rh j r (some b) = some y) : selLE (keyOf y) (keyOf b) := by
  obtain ⟨bi, br, bssf, blsf⟩ := b
  simp only [selBetter] at hy
  split at hy
  · simp only [Option.some.injEq] at hy
    subst hy
    rename_i hcond
    rcases hcond with hc | ⟨hc1, hc2⟩
    · exact Or.inl hc
    · exact Or.inr ⟨hc1, Or.inl hc2⟩
  · simp only [Option.some.injEq] at hy
    subst hy
    exact selLE_refl _

theorem selBetter_le_new {rw rh : ℚ} {j : ℕ} {r : FreeRectangle}
    {best : Option (ℕ × FreeRectangle × ℚ × ℚ)} {y : ℕ × FreeRectangle × ℚ × ℚ}
    (hg : goodBest rw rh j best) (hy : selBetter rw rh j r best = some y) :
    selLE (keyOf y)
      (min (r.width - rw) (r.height - rh), max (r.width - rw) (r.height - rh), j) := by
  cases best with
  | none =>
    simp only [selBetter, Option.some.injEq] at hy
    subst hy
    exact selLE_refl _
  | some b =>
    obtain ⟨bi, br, bssf, blsf⟩ := b
    obtain ⟨hbi, hs1, hs2, _⟩ := hg
    simp only [selBetter] at hy
    split at hy
    · simp only [Option.some.injEq] at hy
      subst hy
      exact selLE_refl _
    · simp only [Option.some.injEq] at hy
      subst hy
      rename_i hcond
      push_neg at hcond
      obtain ⟨hc1, hc2⟩ := hcond
      simp only [selLE, keyOf]
      rcases lt_or_eq_of_le hc1 with hlt | heq
      · exact Or.inl hlt
      · refine Or.inr ⟨heq, ?_⟩
        have hle := hc2 heq.symm
        rcases lt_or_eq_of_le hle with hlt2 | heq2
        · exact Or.inl hlt2
        · exact Or.inr ⟨heq2, Nat.le_of_lt hbi⟩

theorem selectAux_min {rw rh : ℚ} :
    ∀ (l : List FreeRectangle) (j : ℕ) (best : Option (ℕ × FreeRectangle × ℚ × ℚ)),
      goodBest rw rh j best →
      ∀ out, selectAux rw rh j best l = some out →
      goodBest rw rh (j + l.length) (some out) ∧
      (∀ b, best = some b → selLE (keyOf out) (keyOf b)) ∧
      (∀ d, d < l.length → fitsB rw rh (l.getD d default) = true →
        selLE (keyOf out)
          (min ((l.getD d default).width - rw) ((l.getD d default).height - rh),
           max ((l.getD d default).width - rw) ((l.getD d default).height - rh),
           j + d)) ∧
      (best = some out ∨ (∃ d, d < l.length ∧ out.1 = j + d ∧ out.2.1 = l.getD d default)) := by
  intro l
  induction l with
  | nil =>
    intro j best hg out hout
    simp only [selectAux] at hout
    subst hout
    refine ⟨by simpa using hg, ?_, ?_, Or.inl rfl⟩
    · intro b hb
      injection hb with hb
      subst hb
      exact selLE_refl _
    · intro d hd
      simp at hd
  | cons r rest ih =>
    intro j best hg out hout
    simp only [selectAux] at hout
    by_cases hf : fitsB rw rh r = true
    · rw [if_pos hf] at hout
      obtain ⟨y, hy⟩ := @selBetter_isSome rw rh j r best
      rw [hy] at hout
      have hgy : goodBest rw rh (j + 1) (some y) := selBetter_good hf hg hy
      obtain ⟨hgood, hvb, hlist, horig⟩ := ih (j + 1) (some y) hgy out hout
      refine ⟨by rw [length_cons, show j + (rest.length + 1) = j + 1 + rest.length from by omega]; exact hgood, ?_, ?_, ?_⟩
      · intro b hb
        subst hb
        exact selLE_trans (hvb y rfl) (selBetter_le_old hy)
      · intro d hd hfit
        cases d with
        | zero =>
          exact selLE_trans (hvb y rfl) (selBetter_le_new hg hy)
        | succ d' =>
          have h5 := hlist d' (by simpa using hd) (by simpa using hfit)
          rw [getD_cons_succ, show j + (d' + 1) = j + 1 + d' from by omega]
          exact h5
      · rcases horig with horig | ⟨d, hd, h1, h2⟩
        · rcases selBetter_cases (hy.trans horig) with hb | hb
          · exact Or.inl hb
          · simp only [Option.some.injEq] at hb
            refine Or.inr ⟨0, by simp, ?_, ?_⟩
            · simp [hb]
            · simp [hb, getD_cons_zero]
        · exact Or.inr ⟨d + 1, by simpa using hd, by omega, by simpa using h2⟩
    · simp only [Bool.not_eq_true] at hf
      rw [hf] at hout
      simp only [Bool.false_eq_true, if_false] at hout
      obtain ⟨hgood, hvb, hlist, horig⟩ := ih (j + 1) best
        (by
          cases best with
          | none => exact trivial
          | some b =>
            obtain ⟨bi, br, s1, s2⟩ := b
            obtain ⟨h1, h2, h3, h4⟩ := hg
            exact ⟨Nat.lt_succ_of_lt h1, h2, h3, h4⟩) out hout
      refine ⟨by rw [length_cons, show j + (rest.length + 1) = j + 1 + rest.length from by omega]; exact hgood, hvb, ?_, ?_⟩
      · intro d hd hfit
        cases d with
        | zero =>
          simp only [getD_cons_zero] at hfit
          rw [hf] at hfit
          cases hfit
        | succ d' =>
          have h5 := hlist d' (by simpa using hd) (by simpa using hfit)
          rw [getD_cons_succ, show j + (d' + 1) = j + 1 + d' from by omega]
          exact h5
      · rcases horig with horig | ⟨d, hd, h1, h2⟩
        · exact Or.inl horig
        · exact Or.inr ⟨d + 1, by simpa using hd, by omega, by simpa using h2⟩

/-- C7 (confirmed): in the MaxRects driver, a chosen host rectangle is an
actual store entry that fits, and it minimises `short_side_fit`, with ties
broken by `long_side_fit` and remaining ties by the lowest store index; the
item is then placed at that rectangle's origin. -/
theorem C7_maxrects_best_short_side_fit :
    (∀ (rw rh : ℚ) (rects : List FreeRectangle) (i : ℕ) (r : FreeRectangle),
      selectBestRect rw rh rects = some (i, r) →
      i < rects.length ∧ rects.getD i default = r ∧ fitsB rw rh r = true ∧
      ∀ j, j < rects.length → fitsB rw rh (rects.getD j default) = true →
        selLE (min (r.width - rw) (r.height - rh),
               max (r.width - rw) (r.height - rh), i)
          (min ((rects.getD j default).width - rw) ((rects.getD j default).height - rh),
           max ((rects.getD j default).width - rw) ((rects.getD j default).height - rh),
           j)) ∧
    (∀ (printable : FreeRectangle) (s : ℚ) (mp : Bool) (st : RectPackState)
        (photo : Photo) (i : ℕ) (r : FreeRectangle),
      selectBestRect ((getRotatedDimensions photo).1 + s)
          ((getRotatedDimensions photo).2 + s) st.freeRectangles = some (i, r) →
      (maxRectsStep printable s mp st photo).packed =
        st.packed ++ [⟨photo, r.x, r.y, st.currentPage⟩]) := by
  constructor
  · intro rw rh rects i r hsel
    simp only [selectBestRect, Option.map_eq_some'] at hsel
    obtain ⟨out, haux, hout⟩ := hsel
    have h1 : out.1 = i := by
      have := congrArg Prod.fst hout
      simpa using this
    have h2 : out.2.1 = r := by
      have := congrArg Prod.snd hout
      simpa using this
    obtain ⟨hgood, _, hlist, horig⟩ := selectAux_min rects 0 none trivial out haux
    obtain ⟨_, hk1, hk2, hkf⟩ := hgood
    rcases horig with horig | ⟨d, hd, hd1, hd2⟩
    · cases horig
    · have hi : i = d := by omega
      subst hi
      refine ⟨hd, by rw [← hd2, h2], by rw [← h2]; exact hkf, ?_⟩
      intro j hj hfit
      have := hlist j hj hfit
      simp only [keyOf] at this
      rw [← h2, ← h1, ← hk1, ← hk2]
      simpa using this
  · intro printable s mp st photo i r hsel
    rw [maxRectsStep_some hsel]

/-- Witness for `C7_maxrects_best_short_side_fit`: on a two-rect store the
scan picks the tighter rectangle (index 1) and places the photo at its
origin. -/
theorem C7_maxrects_witness :
    (1 < ([⟨0, 0, 10, 10⟩, ⟨6, 0, 4, 4⟩] : List FreeRectangle).length ∧
     ([⟨0, 0, 10, 10⟩, ⟨6, 0, 4, 4⟩] : List FreeRectangle).getD 1 default = ⟨6, 0, 4, 4⟩ ∧
     fitsB 2 2 ⟨6, 0, 4, 4⟩ = true ∧
     ∀ j, j < ([⟨0, 0, 10, 10⟩, ⟨6, 0, 4, 4⟩] : List FreeRectangle).length →
       fitsB 2 2 (([⟨0, 0, 10, 10⟩, ⟨6, 0, 4, 4⟩] : List FreeRectangle).getD j default) = true →
       selLE (min ((4 : ℚ) - 2) ((4 : ℚ) - 2), max ((4 : ℚ) - 2) ((4 : ℚ) - 2), 1)
         (min ((([⟨0, 0, 10, 10⟩, ⟨6, 0, 4, 4⟩] : List FreeRectangle).getD j default).width - 2)
              ((([⟨0, 0, 10, 10⟩, ⟨6, 0, 4, 4⟩] : List FreeRectangle).getD j default).height - 2),
          max ((([⟨0, 0, 10, 10⟩, ⟨6, 0, 4, 4⟩] : List FreeRectangle).getD j default).width - 2)
              ((([⟨0, 0, 10, 10⟩, ⟨6, 0, 4, 4⟩] : List FreeRectangle).getD j default).height - 2),
          j)) := by
  have h := (C7_maxrects_best_short_side_fit).1 2 2 [⟨0, 0, 10, 10⟩, ⟨6, 0, 4, 4⟩] 1 ⟨6, 0, 4, 4⟩
    (by norm_num [selectBestRect, selectAux, selBetter, fitsB])
  simpa using h

/-! ### Non-overlap (claim C2) invariants -/

/-- The spacing-padded region of placement `pl` is disjoint (open sense)
from the rectangle `r`. -/
def sepPR (s : ℚ) (pl : PackedPhoto) (r : FreeRectangle) : Prop :=
  pl.x + effW pl.photo + s ≤ r.x ∨ r.x + r.width ≤ pl.x ∨
  pl.y + effH pl.photo + s ≤ r.y ∨ r.y + r.height ≤ pl.y

def rectsDisjoint (a b : FreeRectangle) : Prop :=
  a.x + a.width ≤ b.x ∨ b.x + b.width ≤ a.x ∨
  a.y + a.height ≤ b.y ∨ b.y + b.height ≤ a.y

/-- Placements on the same page have disjoint padded regions. -/
def samePageDisjoint (s : ℚ) (a b : PackedPhoto) : Prop :=
  a.pageIndex = b.pageIndex → paddedDisjoint s a b

theorem rectsDisjoint_symm : Symmetric rectsDisjoint := by
  intro a b h
  rcases h with h | h | h | h
  · exact Or.inr (Or.inl h)
  · exact Or.inl h
  · exact Or.inr (Or.inr (Or.inr h))
  · exact Or.inr (Or.inr (Or.inl h))

theorem paddedDisjoint_symm {s : ℚ} {a b : PackedPhoto}
    (h : paddedDisjoint s a b) : paddedDisjoint s b a := by
  rcases h with h | h | h | h
  · exact Or.inr (Or.inl h)
  · exact Or.inl h
  · exact Or.inr (Or.inr (Or.inr h))
  · exact Or.inr (Or.inr (Or.inl h))

theorem samePageDisjoint_symm (s : ℚ) : Symmetric (samePageDisjoint s) := by
  intro a b h hpage
  exact paddedDisjoint_symm (h hpage.symm)

theorem sepPR_sub {s : ℚ} {pl : PackedPhoto} {r c : FreeRectangle}
    (h : sepPR s pl r) (hc : subRect c r) : sepPR s pl c := by
  obtain ⟨h1, h2, h3, h4⟩ := hc
  rcases h with h | h | h | h
  · exact Or.inl (by linarith)
  · exact Or.inr (Or.inl (by linarith))
  · exact Or.inr (Or.inr (Or.inl (by linarith)))
  · exact Or.inr (Or.inr (Or.inr (by linarith)))

theorem rectsDisjoint_sub {r r' c : FreeRectangle}
    (h : rectsDisjoint r r') (hc : subRect c r) : rectsDisjoint c r' := by
  obtain ⟨h1, h2, h3, h4⟩ := hc
  rcases h with h | h | h | h
  · exact Or.inl (by linarith)
  · exact Or.inr (Or.inl (by linarith))
  · exact Or.inr (Or.inr (Or.inl (by linarith)))
  · exact Or.inr (Or.inr (Or.inr (by linarith)))

theorem paddedDisjoint_of_sepPR {s : ℚ} {q : PackedPhoto} {r : FreeRectangle}
    {photo : Photo} {page : ℕ}
    (h : sepPR s q r)
    (hfw : effW photo + s ≤ r.width) (hfh : effH photo + s ≤ r.height) :
    paddedDisjoint s q ⟨photo, r.x, r.y, page⟩ := by
  rcases h with h | h | h | h
  · exact Or.inl h
  · exact Or.inr (Or.inl (by simp only [effW, effH] at hfw ⊢; linarith))
  · exact Or.inr (Or.inr (Or.inl h))
  · exact Or.inr (Or.inr (Or.inr (by simp only [effW, effH] at hfh ⊢; linarith)))

theorem sepPR_new_guillotine_children {s : ℚ} {r : FreeRectangle}
    {photo : Photo} {page : ℕ} :
    ∀ c ∈ guillotineChildren r (effW photo + s) (effH photo + s),
      sepPR s (⟨photo, r.x, r.y, page⟩ : PackedPhoto) c := by
  intro c hc
  simp only [guillotineChildren, mem_append] at hc
  rcases hc with hc | hc
  · split at hc
    · simp only [mem_singleton] at hc
      subst hc
      exact Or.inl (by
        change r.x + effW photo + s ≤ r.x + (effW photo + s)
        linarith)
    · cases hc
  · split at hc
    · simp only [mem_singleton] at hc
      subst hc
      exact Or.inr (Or.inr (Or.inl (by
        change r.y + effH photo + s ≤ r.y + (effH photo + s)
        linarith)))
    · cases hc

theorem sepPR_new_of_disjoint {s : ℚ} {r r' : FreeRectangle}
    {photo : Photo} {page : ℕ}
    (h : rectsDisjoint r r')
    (hfw : effW photo + s ≤ r.width) (hfh : effH photo + s ≤ r.height) :
    sepPR s (⟨photo, r.x, r.y, page⟩ : PackedPhoto) r' := by
  rcases h with h | h | h | h
  · exact Or.inl (by simp only [effW]; simp only [effW] at hfw; linarith)
  · exact Or.inr (Or.inl h)
  · exact Or.inr (Or.inr (Or.inl (by simp only [effH]; simp only [effH] at hfh; linarith)))
  · exact Or.inr (Or.inr (Or.inr h))

theorem guillotineChildren_pairwise (r : FreeRectangle) (rw rh : ℚ) :
    (guillotineChildren r rw rh).Pairwise rectsDisjoint := by
  simp only [guillotineChildren]
  split <;> split
  · refine pairwise_append.mpr ⟨pairwise_singleton _ _, pairwise_singleton _ _, ?_⟩
    intro a ha b hb
    simp only [mem_singleton] at ha hb
    subst ha; subst hb
    exact Or.inr (Or.inr (Or.inl (by simp)))
  · simp
  · simp
  · simp

def overlapInv (s : ℚ) (st : RectPackState) : Prop :=
  st.packed.Pairwise (samePageDisjoint s) ∧
  (∀ pl ∈ st.packed, pl.pageIndex ≤ st.currentPage) ∧
  (∀ pl ∈ st.packed, pl.pageIndex = st.currentPage →
    ∀ r ∈ st.freeRectangles, sepPR s pl r) ∧
  st.freeRectangles.Pairwise rectsDisjoint

theorem guillotineStep_overlap {printable : FreeRectangle} {s : ℚ} {mp : Bool}
    (hs : 0 ≤ s) (st : RectPackState) (photo : Photo)
    (hInv : overlapInv s st)
    (hP : 0 ≤ (getRotatedDimensions photo).1 ∧ 0 ≤ (getRotatedDimensions photo).2) :
    overlapInv s (guillotineStep printable s mp st photo) := by
  obtain ⟨hpw, hpage, hsep, hfree⟩ := hInv
  have hrw0 : 0 ≤ (getRotatedDimensions photo).1 + s := by linarith [hP.1]
  have hrh0 : 0 ≤ (getRotatedDimensions photo).2 + s := by linarith [hP.2]
  cases hfind : findFit ((getRotatedDimensions photo).1 + s)
      ((getRotatedDimensions photo).2 + s) st.freeRectangles with
  | some triple =>
    obtain ⟨before, r, after⟩ := triple
    obtain ⟨hl, hfit⟩ := findFit_eq_some hfind
    obtain ⟨hfw, hfh⟩ := fitsB_iff.mp hfit
    rw [hl] at hfree
    rw [pairwise_append] at hfree
    obtain ⟨hbef, hra, hcross⟩ := hfree
    rw [pairwise_cons] at hra
    obtain ⟨hrafter, hafter⟩ := hra
    have hDr : ∀ x ∈ before ++ after, rectsDisjoint r x := by
      intro x hx
      rcases mem_append.mp hx with hx | hx
      · exact rectsDisjoint_symm (hcross x hx r (mem_cons_self r after))
      · exact hrafter x hx
    have hchild : ∀ c ∈ guillotineChildren r ((getRotatedDimensions photo).1 + s)
        ((getRotatedDimensions photo).2 + s), subRect c r :=
      guillotineChildren_subRect hrw0 hrh0 hfh
    have hmemold : ∀ x ∈ before ++ after, x ∈ st.freeRectangles := by
      intro x hx
      rw [hl]
      rcases mem_append.mp hx with hx | hx
      · exact mem_append_left _ hx
      · exact mem_append_right _ (mem_cons_of_mem r hx)
    have hrmem : r ∈ st.freeRectangles := by
      rw [hl]; exact mem_append_right _ (mem_cons_self r after)
    rw [guillotineStep_some hfind]
    refine ⟨?_, ?_, ?_, ?_⟩
    · simp only
      rw [pairwise_append]
      refine ⟨hpw, pairwise_singleton _ _, ?_⟩
      intro q hq pp hpp
      simp only [mem_singleton] at hpp
      subst hpp
      intro hpq
      exact paddedDisjoint_of_sepPR (hsep q hq hpq r hrmem) hfw hfh
    · simp only
      intro pl hpl
      rcases mem_append.mp hpl with hpl | hpl
      · exact hpage pl hpl
      · simp only [mem_singleton] at hpl
        subst hpl
        exact le_refl _
    · simp only
      intro pl hpl hplpage x hx
      have hx' := mem_jsSort.mp hx
      rcases mem_append.mp hx' with hx' | hx'
      · rcases mem_append.mp hpl with hpl | hpl
        · exact hsep pl hpl hplpage x (hmemold x hx')
        · simp only [mem_singleton] at hpl
          subst hpl
          exact sepPR_new_of_disjoint (hDr x hx') hfw hfh
      · rcases mem_append.mp hpl with hpl | hpl
        · exact sepPR_sub (hsep pl hpl hplpage r hrmem) (hchild x hx')
        · simp only [mem_singleton] at hpl
          subst hpl
          exact sepPR_new_guillotine_children x hx'
    · simp only
      apply jsSort_pairwise rectsDisjoint_symm
      rw [pairwise_append]
      refine ⟨pairwise_append.mpr ⟨hbef, hafter, ?_⟩,
        guillotineChildren_pairwise r _ _, ?_⟩
      · intro a ha b hb
        exact hcross a ha b (mem_cons_of_mem r hb)
      · intro x hx c hc
        exact rectsDisjoint_symm (rectsDisjoint_sub (hDr x hx) (hchild c hc))
  | none =>
    cases mp with
    | false =>
      rw [guillotineStep_none_nomp hfind]
      exact ⟨hpw, hpage, hsep, hfree⟩
    | true =>
      cases hfitp : fitsB ((getRotatedDimensions photo).1 + s)
          ((getRotatedDimensions photo).2 + s) printable with
      | true =>
        rw [guillotineStep_none_mp_fit hfind hfitp]
        refine ⟨?_, ?_, ?_, ?_⟩
        · simp only
          rw [pairwise_append]
          refine ⟨hpw, pairwise_singleton _ _, ?_⟩
          intro q hq pp hpp
          simp only [mem_singleton] at hpp
          subst hpp
          intro hpq
          exact absurd hpq (by
            have := hpage q hq
            simp only
            omega)
        · simp only
          intro pl hpl
          rcases mem_append.mp hpl with hpl | hpl
          · exact Nat.le_succ_of_le (hpage pl hpl)
          · simp only [mem_singleton] at hpl
            subst hpl
            exact le_refl _
        · simp only
          intro pl hpl hplpage x hx
          rcases mem_append.mp hpl with hpl | hpl
          · exact absurd hplpage (by
              have := hpage pl hpl
              omega)
          · simp only [mem_singleton] at hpl
            subst hpl
            exact sepPR_new_guillotine_children x (mem_jsSort.mp hx)
        · simp only
          exact jsSort_pairwise rectsDisjoint_symm (guillotineChildren_pairwise printable _ _)
      | false =>
        rw [guillotineStep_none_mp_nofit hfind hfitp]
        refine ⟨hpw, ?_, ?_, pairwise_singleton _ _⟩
        · intro pl hpl
          exact Nat.le_succ_of_le (hpage pl hpl)
        · intro pl hpl hplpage x hx
          exact absurd hplpage (by
            have := hpage pl hpl
            simp only at hplpage ⊢
            omega)

def shelfInv (s : ℚ) (st : ShelfState) : Prop :=
  st.packed.Pairwise (samePageDisjoint s) ∧
  (∀ pl ∈ st.packed, pl.pageIndex ≤ st.currentPage) ∧
  (∀ pl ∈ st.packed, pl.pageIndex = st.currentPage →
    (pl.y + effH pl.photo + s ≤ st.currentY ∨
     (pl.y = st.currentY ∧ pl.x + effW pl.photo + s ≤ st.currentX ∧
      effH pl.photo + s ≤ st.shelfHeight))) ∧
  0 ≤ st.shelfHeight

theorem shelfAdv_inv {printable : FreeRectangle} {s rw : ℚ} {st : ShelfState}
    (hInv : shelfInv s st) : shelfInv s (shelfAdv printable rw st) := by
  obtain ⟨hpw, hpage, hcur, hsh⟩ := hInv
  unfold shelfAdv
  split
  · refine ⟨hpw, hpage, ?_, le_refl 0⟩
    intro pl hpl hplpage
    simp only at hplpage ⊢
    rcases hcur pl hpl hplpage with h | ⟨h1, _, h3⟩
    · exact Or.inl (by linarith)
    · exact Or.inl (by linarith)
  · exact ⟨hpw, hpage, hcur, hsh⟩

theorem shelfPlace_inv {s : ℚ} {photo : Photo} {st : ShelfState}
    (hs : 0 ≤ s)
    (hP : 0 ≤ (getRotatedDimensions photo).1 ∧ 0 ≤ (getRotatedDimensions photo).2)
    (hInv : shelfInv s st) :
    shelfInv s (shelfPlace photo ((getRotatedDimensions photo).1 + s)
      ((getRotatedDimensions photo).2 + s) st) := by
  obtain ⟨hpw, hpage, hcur, hsh⟩ := hInv
  have heW : effW photo = (getRotatedDimensions photo).1 := rfl
  have heH : effH photo = (getRotatedDimensions photo).2 := rfl
  refine ⟨?_, ?_, ?_, ?_⟩
  · simp only [shelfPlace]
    rw [pairwise_append]
    refine ⟨hpw, pairwise_singleton _ _, ?_⟩
    intro q hq pp hpp
    simp only [mem_singleton] at hpp
    subst hpp
    intro hpq
    simp only at hpq
    rcases hcur q hq hpq with h | ⟨h1, h2, _⟩
    · exact Or.inr (Or.inr (Or.inl h))
    · exact Or.inl h2
  · simp only [shelfPlace]
    intro pl hpl
    rcases mem_append.mp hpl with hpl | hpl
    · exact hpage pl hpl
    · simp only [mem_singleton] at hpl
      subst hpl
      exact le_refl _
  · simp only [shelfPlace]
    intro pl hpl hplpage
    rcases mem_append.mp hpl with hpl | hpl
    · rcases hcur pl hpl hplpage with h | ⟨h1, h2, h3⟩
      · exact Or.inl h
      · exact Or.inr ⟨h1, by linarith [hP.1], h3.trans (le_max_left _ _)⟩
    · simp only [mem_singleton] at hpl
      subst hpl
      refine Or.inr ⟨rfl, ?_, ?_⟩
      · simp only [heW]
        linarith
      · simp only [heH]
        exact le_max_right _ _
  · simp only [shelfPlace]
    exact hsh.trans (le_max_left _ _)

theorem shelfStep_overlap {printable : FreeRectangle} {s : ℚ} {mp : Bool}
    (hs : 0 ≤ s) (st : ShelfState) (photo : Photo)
    (hInv : shelfInv s st)
    (hP : 0 ≤ (getRotatedDimensions photo).1 ∧ 0 ≤ (getRotatedDimensions photo).2) :
    shelfInv s (shelfStep printable s mp st photo) := by
  have hInv1 : shelfInv s (shelfAdv printable ((getRotatedDimensions photo).1 + s) st) :=
    shelfAdv_inv hInv
  simp only [shelfStep]
  split
  · cases mp with
    | true =>
      simp only [if_true]
      obtain ⟨hpw1, hpage1, hcur1, hsh1⟩ := hInv1
      have hInv2 : shelfInv s
          (⟨(shelfAdv printable ((getRotatedDimensions photo).1 + s) st).packed,
            (shelfAdv printable ((getRotatedDimensions photo).1 + s) st).currentPage + 1,
            printable.x, printable.y, 0⟩ : ShelfState) := by
        refine ⟨hpw1, ?_, ?_, le_refl 0⟩
        · intro pl hpl
          exact Nat.le_succ_of_le (hpage1 pl hpl)
        · intro pl hpl hplpage
          exact absurd hplpage (by
            have := hpage1 pl hpl
            simp only at hplpage ⊢
            omega)
      exact shelfPlace_inv hs hP hInv2
    | false =>
      simp only [Bool.false_eq_true, if_false]
      exact hInv1
  · exact shelfPlace_inv hs hP hInv1

theorem packPhotos_guillotine_eq (photos : List Photo) (options : PackingOptions) :
    packPhotos photos "guillotine" options = packPhotosGuillotine photos options := by
  simp [packPhotos]

theorem packPhotos_shelf_eq (photos : List Photo) (options : PackingOptions) :
    packPhotos photos "shelf" options = packPhotosShelf photos options := by
  simp [packPhotos]

theorem packPhotos_maxrects_eq (photos : List Photo) (options : PackingOptions) :
    packPhotos photos "maxrects" options = packPhotosMaxRects photos options := by
  simp [packPhotos]

/-! ### Claim C2 -/

/-- C2 (amended): for the guillotine and shelf algorithms, under valid
inputs (non-negative spacing and photo dimensions), any two distinct
placements on the same page have spacing-padded rectangles disjoint in the
open sense.  The maxrects variant implemented by the source ("split host
only, then prune") violates this (see the counterexample). -/
theorem C2_nonoverlap_guillotine_shelf
    (photos : List Photo) (options : PackingOptions) (alg : String)
    (halg : alg = "guillotine" ∨ alg = "shelf")
    (hs : 0 ≤ options.spacing.getD 0)
    (hdims : ∀ p ∈ photos, 0 ≤ p.size.width ∧ 0 ≤ p.size.height) :
    (packPhotos photos alg options).Pairwise
      (samePageDisjoint (options.spacing.getD 0)) := by
  rcases halg with halg | halg <;> subst halg
  · rw [packPhotos_guillotine_eq]
    have h := foldl_invariant
      (guillotineStep (getPrintableArea options) (options.spacing.getD 0)
        (options.multiPage.getD false))
      (overlapInv (options.spacing.getD 0))
      (fun p => 0 ≤ (getRotatedDimensions p).1 ∧ 0 ≤ (getRotatedDimensions p).2)
      (fun st a hI hPa => guillotineStep_overlap hs st a hI hPa)
      (jsSort cmpPriorityArea photos)
      ⟨[], 0, [getPrintableArea options]⟩
      (by
        refine ⟨Pairwise.nil, ?_, ?_, pairwise_singleton _ _⟩ <;>
          intro pl hpl <;> cases hpl)
      (by
        intro a ha
        obtain ⟨hw, hh⟩ := hdims a (mem_jsSort.mp ha)
        exact rotated_nonneg hw hh)
    exact h.1
  · rw [packPhotos_shelf_eq]
    have h := foldl_invariant
      (shelfStep (getPrintableArea options) (options.spacing.getD 0)
        (options.multiPage.getD false))
      (shelfInv (options.spacing.getD 0))
      (fun p => 0 ≤ (getRotatedDimensions p).1 ∧ 0 ≤ (getRotatedDimensions p).2)
      (fun st a hI hPa => shelfStep_overlap hs st a hI hPa)
      (jsSort cmpPriorityHeight photos)
      ⟨[], 0, (getPrintableArea options).x, (getPrintableArea options).y, 0⟩
      (by
        refine ⟨Pairwise.nil, ?_, ?_, le_refl 0⟩ <;>
          intro pl hpl <;> cases hpl)
      (by
        intro a ha
        obtain ⟨hw, hh⟩ := hdims a (mem_jsSort.mp ha)
        exact rotated_nonneg hw hh)
    exact h.1

/-- C2 counterexample: the claim quantifies over all three algorithms, but
the source's MaxRects variant splits only the host rectangle, so a free rect
left overlapping the used region admits a later placement on top of an
earlier one.  With priorities forcing the order (4×4, then 10×3, then 5×5
on a 10×10 page), the second and third placements overlap on page 0. -/
theorem C2_maxrects_overlap_counterexample :
    packPhotos
        [⟨1, "p", "", ⟨"s", 4, 4⟩, 0, 0, 0, some 3, none⟩,
         ⟨2, "p", "", ⟨"s", 10, 3⟩, 0, 0, 0, some 2, none⟩,
         ⟨3, "p", "", ⟨"s", 5, 5⟩, 0, 0, 0, some 1, none⟩] "maxrects"
        ⟨10, 10, none, none, none, none, none, none⟩ =
      [⟨⟨1, "p", "", ⟨"s", 4, 4⟩, 0, 0, 0, some 3, none⟩, 0, 0, 0⟩,
       ⟨⟨2, "p", "", ⟨"s", 10, 3⟩, 0, 0, 0, some 2, none⟩, 0, 4, 0⟩,
       ⟨⟨3, "p", "", ⟨"s", 5, 5⟩, 0, 0, 0, some 1, none⟩, 4, 0, 0⟩] ∧
    (⟨⟨2, "p", "", ⟨"s", 10, 3⟩, 0, 0, 0, some 2, none⟩, 0, 4, 0⟩ : PackedPhoto) ≠
      ⟨⟨3, "p", "", ⟨"s", 5, 5⟩, 0, 0, 0, some 1, none⟩, 4, 0, 0⟩ ∧
    (⟨⟨2, "p", "", ⟨"s", 10, 3⟩, 0, 0, 0, some 2, none⟩, 0, 4, 0⟩ : PackedPhoto).pageIndex =
      (⟨⟨3, "p", "", ⟨"s", 5, 5⟩, 0, 0, 0, some 1, none⟩, 4, 0, 0⟩ : PackedPhoto).pageIndex ∧
    ¬ paddedDisjoint 0
      (⟨⟨2, "p", "", ⟨"s", 10, 3⟩, 0, 0, 0, some 2, none⟩, 0, 4, 0⟩ : PackedPhoto)
      (⟨⟨3, "p", "", ⟨"s", 5, 5⟩, 0, 0, 0, some 1, none⟩, 4, 0, 0⟩ : PackedPhoto) := by
  refine ⟨?_, ?_, rfl, ?_⟩
  · rw [packPhotos_maxrects_eq]
    norm_num [packPhotosMaxRects, jsSort, jsSortInsert, cmpPriorityArea,
      getRotatedDimensions, getPrintableArea, maxRectsStep, selectBestRect,
      selectAux, selBetter, fitsB, maxRectsChildren, addIfNotContained, isContainedIn,
      pruneContained, pruneDown, pruneIdx, List.range, List.range.loop]
  · intro h
    have := congrArg (fun pl => pl.photo.id) h
    norm_num at this
  · intro h
    rcases h with h | h | h | h <;>
      simp only [effW, effH, getRotatedDimensions] at h <;> norm_num at h

/-- Witness for `C2_nonoverlap_guillotine_shelf` at a concrete run. -/
theorem C2_nonoverlap_witness :
    (packPhotos
        [⟨1, "p", "", ⟨"s", 2, 2⟩, 0, 0, 0, none, none⟩,
         ⟨2, "p", "", ⟨"s", 2, 2⟩, 0, 0, 0, none, none⟩] "guillotine"
        ⟨4, 6, none, none, none, none, none, none⟩).Pairwise
      (samePageDisjoint 0) :=
  C2_nonoverlap_guillotine_shelf
    [⟨1, "p", "", ⟨"s", 2, 2⟩, 0, 0, 0, none, none⟩,
     ⟨2, "p", "", ⟨"s", 2, 2⟩, 0, 0, 0, none, none⟩]
    ⟨4, 6, none, none, none, none, none, none⟩ "guillotine" (Or.inl rfl)
    (by norm_num)
    (by
      intro p hp
      simp only [mem_cons, not_mem_nil, or_false] at hp
      rcases hp with hp | hp <;> subst hp <;> norm_num)

/-! ### Claim C5 -/

/-- The pages used by `packed` are exactly `{0, …, cur}`. -/
def pagesConsecutive (packed : List PackedPhoto) (cur : ℕ) : Prop :=
  ∀ k, (∃ pl ∈ packed, pl.pageIndex = k) ↔ k ≤ cur

theorem pagesConsecutive_append_cur {packed : List PackedPhoto} {cur : ℕ}
    {pp : PackedPhoto} (h : pagesConsecutive packed cur)
    (hpp : pp.pageIndex = cur) : pagesConsecutive (packed ++ [pp]) cur := by
  intro k
  constructor
  · rintro ⟨pl, hpl, hk⟩
    rcases mem_append.mp hpl with hpl | hpl
    · exact (h k).mp ⟨pl, hpl, hk⟩
    · simp only [mem_singleton] at hpl
      subst hpl
      omega
  · intro hk
    obtain ⟨pl, hpl, hk'⟩ := (h k).mpr hk
    exact ⟨pl, mem_append_left _ hpl, hk'⟩

theorem pagesConsecutive_append_succ {packed : List PackedPhoto} {cur : ℕ}
    {pp : PackedPhoto} (h : pagesConsecutive packed cur)
    (hpp : pp.pageIndex = cur + 1) : pagesConsecutive (packed ++ [pp]) (cur + 1) := by
  intro k
  constructor
  · rintro ⟨pl, hpl, hk⟩
    rcases mem_append.mp hpl with hpl | hpl
    · have := (h k).mp ⟨pl, hpl, hk⟩
      omega
    · simp only [mem_singleton] at hpl
      subst hpl
      omega
  · intro hk
    rcases Nat.lt_or_ge k (cur + 1) with hlt | hge
    · obtain ⟨pl, hpl, hk'⟩ := (h k).mpr (by omega)
      exact ⟨pl, mem_append_left _ hpl, hk'⟩
    · have : k = cur + 1 := by omega
      subst this
      exact ⟨pp, mem_append_right _ (mem_singleton_self pp), hpp⟩

theorem pagesConsecutive_singleton {pp : PackedPhoto} (hpp : pp.pageIndex = 0) :
    pagesConsecutive [pp] 0 := by
  intro k
  constructor
  · rintro ⟨pl, hpl, hk⟩
    simp only [mem_singleton] at hpl
    subst hpl
    omega
  · intro hk
    have : k = 0 := by omega
    subst this
    exact ⟨pp, mem_singleton_self pp, hpp⟩

def gPageInv (printable : FreeRectangle) (st : RectPackState) : Prop :=
  (st.packed = [] ∧ st.currentPage = 0 ∧ st.freeRectangles = [printable]) ∨
  pagesConsecutive st.packed st.currentPage

theorem findFit_singleton_fit {rw rh : ℚ} {r : FreeRectangle}
    (h : fitsB rw rh r = true) : findFit rw rh [r] = some ([], r, []) := by
  simp [findFit, h]

theorem selectBestRect_singleton_fit {rw rh : ℚ} {r : FreeRectangle}
    (h : fitsB rw rh r = true) : selectBestRect rw rh [r] = some (0, r) := by
  simp [selectBestRect, selectAux, selBetter, h]

theorem guillotineStep_pages {printable : FreeRectangle} {s : ℚ} {mp : Bool}
    (st : RectPackState) (photo : Photo)
    (hInv : gPageInv printable st)
    (hP : fitsB ((getRotatedDimensions photo).1 + s)
      ((getRotatedDimensions photo).2 + s) printable = true) :
    gPageInv printable (guillotineStep printable s mp st photo) := by
  rcases hInv with ⟨hpk, hcur, hfr⟩ | hcons
  · have hfind : findFit ((getRotatedDimensions photo).1 + s)
        ((getRotatedDimensions photo).2 + s) st.freeRectangles =
        some ([], printable, []) := by
      rw [hfr]
      exact findFit_singleton_fit hP
    rw [guillotineStep_some hfind]
    right
    rw [hpk, hcur]
    exact pagesConsecutive_singleton rfl
  · cases hfind : findFit ((getRotatedDimensions photo).1 + s)
        ((getRotatedDimensions photo).2 + s) st.freeRectangles with
    | some triple =>
      obtain ⟨before, r, after⟩ := triple
      rw [guillotineStep_some hfind]
      exact Or.inr (pagesConsecutive_append_cur hcons rfl)
    | none =>
      cases mp with
      | false =>
        rw [guillotineStep_none_nomp hfind]
        exact Or.inr hcons
      | true =>
        rw [guillotineStep_none_mp_fit hfind hP]
        exact Or.inr (pagesConsecutive_append_succ hcons rfl)

theorem maxRectsStep_pages {printable : FreeRectangle} {s : ℚ} {mp : Bool}
    (st : RectPackState) (photo : Photo)
    (hInv : gPageInv printable st)
    (hP : fitsB ((getRotatedDimensions photo).1 + s)
      ((getRotatedDimensions photo).2 + s) printable = true) :
    gPageInv printable (maxRectsStep printable s mp st photo) := by
  rcases hInv with ⟨hpk, hcur, hfr⟩ | hcons
  · have hsel : selectBestRect ((getRotatedDimensions photo).1 + s)
        ((getRotatedDimensions photo).2 + s) st.freeRectangles =
        some (0, printable) := by
      rw [hfr]
      exact selectBestRect_singleton_fit hP
    rw [maxRectsStep_some hsel]
    right
    rw [hpk, hcur]
    exact pagesConsecutive_singleton rfl
  · cases hsel : selectBestRect ((getRotatedDimensions photo).1 + s)
        ((getRotatedDimensions photo).2 + s) st.freeRectangles with
    | some pair =>
      obtain ⟨i, r⟩ := pair
      rw [maxRectsStep_some hsel]
      exact Or.inr (pagesConsecutive_append_cur hcons rfl)
    | none =>
      cases mp with
      | false =>
        rw [maxRectsStep_none_nomp hsel]
        exact Or.inr hcons
      | true =>
        rw [maxRectsStep_none_mp_fit hsel hP]
        exact Or.inr (pagesConsecutive_append_succ hcons rfl)

def shelfPageInv (printable : FreeRectangle) (st : ShelfState) : Prop :=
  (st.packed = [] ∧ st.currentPage = 0 ∧ st.currentX = printable.x ∧
   st.currentY = printable.y ∧ st.shelfHeight = 0) ∨
  pagesConsecutive st.packed st.currentPage

theorem shelfStep_pages {printable : FreeRectangle} {s : ℚ} {mp : Bool}
    (st : ShelfState) (photo : Photo)
    (hInv : shelfPageInv printable st)
    (hP : fitsB ((getRotatedDimensions photo).1 + s)
      ((getRotatedDimensions photo).2 + s) printable = true) :
    shelfPageInv printable (shelfStep printable s mp st photo) := by
  obtain ⟨hfw, hfh⟩ := fitsB_iff.mp hP
  rcases hInv with ⟨hpk, hcur, hx, hy, hsh⟩ | hcons
  · have hadv : shelfAdv printable ((getRotatedDimensions photo).1 + s) st = st := by
      unfold shelfAdv
      rw [if_neg]
      rw [hx]
      intro h
      linarith
    simp only [shelfStep, hadv]
    rw [if_neg (by rw [hy]; intro h; linarith)]
    right
    simp only [shelfPlace, hpk, hcur]
    rw [nil_append]
    exact pagesConsecutive_singleton rfl
  · have hadv_pk : (shelfAdv printable ((getRotatedDimensions photo).1 + s) st).packed =
        st.packed := by
      unfold shelfAdv
      split <;> rfl
    have hadv_pg : (shelfAdv printable ((getRotatedDimensions photo).1 + s) st).currentPage =
        st.currentPage := by
      unfold shelfAdv
      split <;> rfl
    simp only [shelfStep]
    split
    · cases mp with
      | true =>
        simp only [if_true]
        right
        simp only [shelfPlace, hadv_pk, hadv_pg]
        exact pagesConsecutive_append_succ hcons rfl
      | false =>
        simp only [Bool.false_eq_true, if_false]
        right
        rw [show pagesConsecutive (shelfAdv printable ((getRotatedDimensions photo).1 + s)
          st).packed (shelfAdv printable ((getRotatedDimensions photo).1 + s) st).currentPage =
          pagesConsecutive st.packed st.currentPage from by rw [hadv_pk, hadv_pg]]
        exact hcons
    · right
      simp only [shelfPlace, hadv_pk, hadv_pg]
      exact pagesConsecutive_append_cur hcons rfl

/-- C5 (amended): provided every input's spacing-padded effective dimensions
fit within the printable area, and the output is non-empty, the set of
`page_index` values in the output is `{0, 1, …, K}` for some `K ≥ 0`, for
each of the three algorithms.  Without that proviso an oversized item can
burn a page without placing anything, leaving the indices shifted (see the
counterexample). -/
theorem C5_pages_consecutive_when_all_fit
    (photos : List Photo) (options : PackingOptions) (alg : String)
    (halg : alg = "guillotine" ∨ alg = "shelf" ∨ alg = "maxrects")
    (hfit : ∀ p ∈ photos,
      fitsB (effW p + options.spacing.getD 0) (effH p + options.spacing.getD 0)
        (getPrintableArea options) = true) :
    packPhotos photos alg options ≠ [] →
    ∃ K, ∀ k, (∃ pl ∈ packPhotos photos alg options, pl.pageIndex = k) ↔ k ≤ K := by
  intro hne
  rcases halg with halg | halg | halg <;> subst halg
  · rw [packPhotos_guillotine_eq] at hne ⊢
    have h := foldl_invariant
      (guillotineStep (getPrintableArea options) (options.spacing.getD 0)
        (options.multiPage.getD false))
      (gPageInv (getPrintableArea options))
      (fun p => fitsB ((getRotatedDimensions p).1 + options.spacing.getD 0)
        ((getRotatedDimensions p).2 + options.spacing.getD 0)
        (getPrintableArea options) = true)
      (fun st a hI hPa => guillotineStep_pages st a hI hPa)
      (jsSort cmpPriorityArea photos)
      ⟨[], 0, [getPrintableArea options]⟩
      (Or.inl ⟨rfl, rfl, rfl⟩)
      (fun a ha => hfit a (mem_jsSort.mp ha))
    rcases h with ⟨hpk, _, _⟩ | hcons
    · exact absurd hpk hne
    · exact ⟨_, hcons⟩
  · rw [packPhotos_shelf_eq] at hne ⊢
    have h := foldl_invariant
      (shelfStep (getPrintableArea options) (options.spacing.getD 0)
        (options.multiPage.getD false))
      (shelfPageInv (getPrintableArea options))
      (fun p => fitsB ((getRotatedDimensions p).1 + options.spacing.getD 0)
        ((getRotatedDimensions p).2 + options.spacing.getD 0)
        (getPrintableArea options) = true)
      (fun st a hI hPa => shelfStep_pages st a hI hPa)
      (jsSort cmpPriorityHeight photos)
      ⟨[], 0, (getPrintableArea options).x, (getPrintableArea options).y, 0⟩
      (Or.inl ⟨rfl, rfl, rfl, rfl, rfl⟩)
      (fun a ha => hfit a (mem_jsSort.mp ha))
    rcases h with ⟨hpk, _⟩ | hcons
    · exact absurd hpk hne
    · exact ⟨_, hcons⟩
  · rw [packPhotos_maxrects_eq] at hne ⊢
    have h := foldl_invariant
      (maxRectsStep (getPrintableArea options) (options.spacing.getD 0)
        (options.multiPage.getD false))
      (gPageInv (getPrintableArea options))
      (fun p => fitsB ((getRotatedDimensions p).1 + options.spacing.getD 0)
        ((getRotatedDimensions p).2 + options.spacing.getD 0)
        (getPrintableArea options) = true)
      (fun st a hI hPa => maxRectsStep_pages st a hI hPa)
      (jsSort cmpPriorityArea photos)
      ⟨[], 0, [getPrintableArea options]⟩
      (Or.inl ⟨rfl, rfl, rfl⟩)
      (fun a ha => hfit a (mem_jsSort.mp ha))
    rcases h with ⟨hpk, _, _⟩ | hcons
    · exact absurd hpk hne
    · exact ⟨_, hcons⟩

/-- C5 counterexample: an oversized first photo (10×10 on a 4×6 page,
multi-page on) makes guillotine burn page 0 and reset onto page 1 without
placing; the small photo then lands on page 1, so the output's page set is
`{1}` — not consecutive from 0. -/
theorem C5_oversized_skips_page_zero_counterexample :
    packPhotos
        [⟨1, "p", "", ⟨"s", 10, 10⟩, 0, 0, 0, none, none⟩,
         ⟨2, "p", "", ⟨"s", 2, 2⟩, 0, 0, 0, none, none⟩] "guillotine"
        ⟨4, 6, none, none, none, none, none, some true⟩ =
      [⟨⟨2, "p", "", ⟨"s", 2, 2⟩, 0, 0, 0, none, none⟩, 0, 0, 1⟩] ∧
    ¬ ∃ K, ∀ k,
      (∃ pl ∈ packPhotos
          [⟨1, "p", "", ⟨"s", 10, 10⟩, 0, 0, 0, none, none⟩,
           ⟨2, "p", "", ⟨"s", 2, 2⟩, 0, 0, 0, none, none⟩] "guillotine"
          ⟨4, 6, none, none, none, none, none, some true⟩, pl.pageIndex = k) ↔ k ≤ K := by
  have heval : packPhotos
      [⟨1, "p", "", ⟨"s", 10, 10⟩, 0, 0, 0, none, none⟩,
       ⟨2, "p", "", ⟨"s", 2, 2⟩, 0, 0, 0, none, none⟩] "guillotine"
      ⟨4, 6, none, none, none, none, none, some true⟩ =
      [⟨⟨2, "p", "", ⟨"s", 2, 2⟩, 0, 0, 0, none, none⟩, 0, 0, 1⟩] := by
    rw [packPhotos_guillotine_eq]
    norm_num [packPhotosGuillotine, jsSort, jsSortInsert, cmpPriorityArea,
      getRotatedDimensions, getPrintableArea, guillotineStep, findFit, fitsB,
      guillotineChildren, areaCmp]
  refine ⟨heval, ?_⟩
  rintro ⟨K, hK⟩
  have h1 : (1 : ℕ) ≤ K := (hK 1).mp
    ⟨⟨⟨2, "p", "", ⟨"s", 2, 2⟩, 0, 0, 0, none, none⟩, 0, 0, 1⟩,
     by rw [heval]; exact mem_singleton_self _, rfl⟩
  obtain ⟨pl, hpl, hpl0⟩ := (hK 0).mpr (by omega)
  rw [heval] at hpl
  simp only [mem_singleton] at hpl
  subst hpl
  simp at hpl0

/-- Witness for `C5_pages_consecutive_when_all_fit` at a concrete run. -/
theorem C5_pages_witness :
    ∃ K, ∀ k,
      (∃ pl ∈ packPhotos [⟨1, "p", "", ⟨"s", 2, 2⟩, 0, 0, 0, none, none⟩] "guillotine"
          ⟨4, 6, none, none, none, none, none, none⟩, pl.pageIndex = k) ↔ k ≤ K := by
  refine C5_pages_consecutive_when_all_fit
    [⟨1, "p", "", ⟨"s", 2, 2⟩, 0, 0, 0, none, none⟩]
    ⟨4, 6, none, none, none, none, none, none⟩ "guillotine" (Or.inl rfl) ?_ ?_
  · intro p hp
    simp only [mem_singleton] at hp
    subst hp
    norm_num [fitsB, effW, effH, getRotatedDimensions, getPrintableArea]
  · rw [packPhotos_guillotine_eq]
    norm_num [packPhotosGuillotine, jsSort, jsSortInsert, cmpPriorityArea,
      getRotatedDimensions, getPrintableArea, guillotineStep, findFit, fitsB,
      guillotineChildren, areaCmp]

/-! ### Multi-page placement characterizations (claims C6 and C9) -/

theorem guillotineStep_packed_append {printable : FreeRectangle} {s : ℚ} {mp : Bool}
    (st : RectPackState) (photo : Photo) :
    ∃ t, (guillotineStep printable s mp st photo).packed = st.packed ++ t := by
  cases hfind : findFit ((getRotatedDimensions photo).1 + s)
      ((getRotatedDimensions photo).2 + s) st.freeRectangles with
  | some triple =>
    obtain ⟨before, r, after⟩ := triple
    rw [guillotineStep_some hfind]
    exact ⟨_, rfl⟩
  | none =>
    cases mp with
    | false =>
      rw [guillotineStep_none_nomp hfind]
      exact ⟨[], (append_nil _).symm⟩
    | true =>
      cases hfitp : fitsB ((getRotatedDimensions photo).1 + s)
          ((getRotatedDimensions photo).2 + s) printable with
      | true =>
        rw [guillotineStep_none_mp_fit hfind hfitp]
        exact ⟨_, rfl⟩
      | false =>
        rw [guillotineStep_none_mp_nofit hfind hfitp]
        exact ⟨[], (append_nil _).symm⟩

theorem maxRectsStep_packed_append {printable : FreeRectangle} {s : ℚ} {mp : Bool}
    (st : RectPackState) (photo : Photo) :
    ∃ t, (maxRectsStep printable s mp st photo).packed = st.packed ++ t := by
  cases hsel : selectBestRect ((getRotatedDimensions photo).1 + s)
      ((getRotatedDimensions photo).2 + s) st.freeRectangles with
  | some pair =>
    obtain ⟨i, r⟩ := pair
    rw [maxRectsStep_some hsel]
    exact ⟨_, rfl⟩
  | none =>
    cases mp with
    | false =>
      rw [maxRectsStep_none_nomp hsel]
      exact ⟨[], (append_nil _).symm⟩
    | true =>
      cases hfitp : fitsB ((getRotatedDimensions photo).1 + s)
          ((getRotatedDimensions photo).2 + s) printable with
      | true =>
        rw [maxRectsStep_none_mp_fit hsel hfitp]
        exact ⟨_, rfl⟩
      | false =>
        rw [maxRectsStep_none_mp_nofit hsel hfitp]
        exact ⟨[], (append_nil _).symm⟩

theorem shelfStep_packed_append {printable : FreeRectangle} {s : ℚ} {mp : Bool}
    (st : ShelfState) (photo : Photo) :
    ∃ t, (shelfStep printable s mp st photo).packed = st.packed ++ t := by
  have hadv : (shelfAdv printable ((getRotatedDimensions photo).1 + s) st).packed =
      st.packed := by
    unfold shelfAdv
    split <;> rfl
  simp only [shelfStep]
  split
  · cases mp with
    | true =>
      simp only [if_true, shelfPlace]
      exact ⟨_, by rw [hadv]⟩
    | false =>
      simp only [Bool.false_eq_true, if_false]
      exact ⟨[], by rw [hadv, append_nil]⟩
  · simp only [shelfPlace]
    exact ⟨_, by rw [hadv]⟩

theorem foldl_packed_mono {σ : Type _} (step : σ → Photo → σ)
    (packedOf : σ → List PackedPhoto)
    (hstep : ∀ st photo, ∃ t, packedOf (step st photo) = packedOf st ++ t) :
    ∀ (l : List Photo) (st : σ) (pl : PackedPhoto),
      pl ∈ packedOf st → pl ∈ packedOf (l.foldl step st) := by
  intro l
  induction l with
  | nil => intro st pl h; exact h
  | cons a t ih =>
    intro st pl h
    obtain ⟨tl, htl⟩ := hstep st a
    rw [foldl_cons]
    exact ih (step st a) pl (by rw [htl]; exact mem_append_left _ h)

theorem guillotineStep_length_mp {printable : FreeRectangle} {s : ℚ}
    (st : RectPackState) (photo : Photo)
    (hcont : containInv printable st) :
    (guillotineStep printable s true st photo).packed.length =
      st.packed.length +
        (if fitsB ((getRotatedDimensions photo).1 + s)
            ((getRotatedDimensions photo).2 + s) printable = true then 1 else 0) := by
  cases hfind : findFit ((getRotatedDimensions photo).1 + s)
      ((getRotatedDimensions photo).2 + s) st.freeRectangles with
  | some triple =>
    obtain ⟨before, r, after⟩ := triple
    obtain ⟨hl, hfit⟩ := findFit_eq_some hfind
    have hrmem : r ∈ st.freeRectangles := by
      rw [hl]; exact mem_append_right _ (mem_cons_self r after)
    obtain ⟨hdw, hdh⟩ := subRect_dims (hcont.1 r hrmem)
    obtain ⟨hfw, hfh⟩ := fitsB_iff.mp hfit
    have hfitp : fitsB ((getRotatedDimensions photo).1 + s)
        ((getRotatedDimensions photo).2 + s) printable = true :=
      fitsB_iff.mpr ⟨hfw.trans hdw, hfh.trans hdh⟩
    rw [guillotineStep_some hfind]
    simp [hfitp]
  | none =>
    cases hfitp : fitsB ((getRotatedDimensions photo).1 + s)
        ((getRotatedDimensions photo).2 + s) printable with
    | true =>
      rw [guillotineStep_none_mp_fit hfind hfitp]
      simp [hfitp]
    | false =>
      rw [guillotineStep_none_mp_nofit hfind hfitp]
      simp [hfitp]

theorem selectBestRect_fits_of_some {rw rh : ℚ} {rects : List FreeRectangle}
    {i : ℕ} {r : FreeRectangle} {printable : FreeRectangle}
    (h : selectBestRect rw rh rects = some (i, r))
    (hb : ∀ x ∈ rects, x.width ≤ printable.width ∧ x.height ≤ printable.height) :
    fitsB rw rh printable = true := by
  obtain ⟨hrmem, hfit⟩ := selectBestRect_mem_fits h
  obtain ⟨hfw, hfh⟩ := fitsB_iff.mp hfit
  obtain ⟨hdw, hdh⟩ := hb r hrmem
  exact fitsB_iff.mpr ⟨hfw.trans hdw, hfh.trans hdh⟩

theorem maxRectsStep_length_mp {printable : FreeRectangle} {s : ℚ}
    (st : RectPackState) (photo : Photo)
    (hcont : containInv printable st) :
    (maxRectsStep printable s true st photo).packed.length =
      st.packed.length +
        (if fitsB ((getRotatedDimensions photo).1 + s)
            ((getRotatedDimensions photo).2 + s) printable = true then 1 else 0) := by
  cases hsel : selectBestRect ((getRotatedDimensions photo).1 + s)
      ((getRotatedDimensions photo).2 + s) st.freeRectangles with
  | some pair =>
    obtain ⟨i, r⟩ := pair
    have hfitp : fitsB ((getRotatedDimensions photo).1 + s)
        ((getRotatedDimensions photo).2 + s) printable = true :=
      selectBestRect_fits_of_some hsel
        (fun x hx => subRect_dims (hcont.1 x hx))
    rw [maxRectsStep_some hsel]
    simp [hfitp]
  | none =>
    cases hfitp : fitsB ((getRotatedDimensions photo).1 + s)
        ((getRotatedDimensions photo).2 + s) printable with
    | true =>
      rw [maxRectsStep_none_mp_fit hsel hfitp]
      simp [hfitp]
    | false =>
      rw [maxRectsStep_none_mp_nofit hsel hfitp]
      simp [hfitp]

theorem shelfStep_length_mp {printable : FreeRectangle} {s : ℚ}
    (st : ShelfState) (photo : Photo) :
    (shelfStep printable s true st photo).packed.length = st.packed.length + 1 := by
  have hadv : (shelfAdv printable ((getRotatedDimensions photo).1 + s) st).packed =
      st.packed := by
    unfold shelfAdv
    split <;> rfl
  simp only [shelfStep]
  split
  · simp only [if_true, shelfPlace]
    simp [hadv]
  · simp only [shelfPlace]
    simp [hadv]

theorem guillotine_foldl_length_mp {printable : FreeRectangle} {s : ℚ}
    (hs : 0 ≤ s) :
    ∀ (l : List Photo) (st : RectPackState), containInv printable st →
      (∀ p ∈ l, 0 ≤ (getRotatedDimensions p).1 ∧ 0 ≤ (getRotatedDimensions p).2) →
      (l.foldl (guillotineStep printable s true) st).packed.length =
        st.packed.length + l.countP (fun p => fitsB ((getRotatedDimensions p).1 + s)
          ((getRotatedDimensions p).2 + s) printable) := by
  intro l
  induction l with
  | nil => intro st _ _; simp
  | cons a t ih =>
    intro st hcont hdims
    rw [foldl_cons, countP_cons,
      ih (guillotineStep printable s true st a)
        (guillotineStep_contain hs st a hcont (hdims a (mem_cons_self a t)))
        (fun p hp => hdims p (mem_cons_of_mem a hp)),
      guillotineStep_length_mp st a hcont]
    by_cases hfa : fitsB ((getRotatedDimensions a).1 + s)
        ((getRotatedDimensions a).2 + s) printable = true
    · simp [hfa]
      omega
    · simp only [Bool.not_eq_true] at hfa
      simp [hfa]

theorem maxrects_foldl_length_mp {printable : FreeRectangle} {s : ℚ}
    (hs : 0 ≤ s) :
    ∀ (l : List Photo) (st : RectPackState), containInv printable st →
      (∀ p ∈ l, 0 ≤ (getRotatedDimensions p).1 ∧ 0 ≤ (getRotatedDimensions p).2) →
      (l.foldl (maxRectsStep printable s true) st).packed.length =
        st.packed.length + l.countP (fun p => fitsB ((getRotatedDimensions p).1 + s)
          ((getRotatedDimensions p).2 + s) printable) := by
  intro l
  induction l with
  | nil => intro st _ _; simp
  | cons a t ih =>
    intro st hcont hdims
    rw [foldl_cons, countP_cons,
      ih (maxRectsStep printable s true st a)
        (maxRectsStep_contain hs st a hcont (hdims a (mem_cons_self a t)))
        (fun p hp => hdims p (mem_cons_of_mem a hp)),
      maxRectsStep_length_mp st a hcont]
    by_cases hfa : fitsB ((getRotatedDimensions a).1 + s)
        ((getRotatedDimensions a).2 + s) printable = true
    · simp [hfa]
      omega
    · simp only [Bool.not_eq_true] at hfa
      simp [hfa]

theorem shelf_foldl_length_mp {printable : FreeRectangle} {s : ℚ} :
    ∀ (l : List Photo) (st : ShelfState),
      (l.foldl (shelfStep printable s true) st).packed.length =
        st.packed.length + l.length := by
  intro l
  induction l with
  | nil => intro st; simp
  | cons a t ih =>
    intro st
    rw [foldl_cons, ih (shelfStep printable s true st a), shelfStep_length_mp st a,
      length_cons]
    omega

theorem packPhotosGuillotine_length_mp (photos : List Photo) (options : PackingOptions)
    (hmp : options.multiPage = some true) (hs : 0 ≤ options.spacing.getD 0)
    (hdims : ∀ p ∈ photos, 0 ≤ p.size.width ∧ 0 ≤ p.size.height) :
    (packPhotosGuillotine photos options).length =
      photos.countP (fun p => fitsB ((getRotatedDimensions p).1 + options.spacing.getD 0)
        ((getRotatedDimensions p).2 + options.spacing.getD 0) (getPrintableArea options)) := by
  unfold packPhotosGuillotine
  rw [hmp]
  simp only [Option.getD_some]
  rw [guillotine_foldl_length_mp hs (jsSort cmpPriorityArea photos)
      ⟨[], 0, [getPrintableArea options]⟩
      (by
        refine ⟨?_, ?_⟩
        · intro r hr
          simp only [mem_singleton] at hr
          subst hr
          exact subRect_refl _
        · intro pl hpl
          cases hpl)
      (by
        intro p hp
        obtain ⟨hw, hh⟩ := hdims p (mem_jsSort.mp hp)
        exact rotated_nonneg hw hh)]
  rw [jsSort_countP]
  simp

theorem packPhotosMaxRects_length_mp (photos : List Photo) (options : PackingOptions)
    (hmp : options.multiPage = some true) (hs : 0 ≤ options.spacing.getD 0)
    (hdims : ∀ p ∈ photos, 0 ≤ p.size.width ∧ 0 ≤ p.size.height) :
    (packPhotosMaxRects photos options).length =
      photos.countP (fun p => fitsB ((getRotatedDimensions p).1 + options.spacing.getD 0)
        ((getRotatedDimensions p).2 + options.spacing.getD 0) (getPrintableArea options)) := by
  unfold packPhotosMaxRects
  rw [hmp]
  simp only [Option.getD_some]
  rw [maxrects_foldl_length_mp hs (jsSort cmpPriorityArea photos)
      ⟨[], 0, [getPrintableArea options]⟩
      (by
        refine ⟨?_, ?_⟩
        · intro r hr
          simp only [mem_singleton] at hr
          subst hr
          exact subRect_refl _
        · intro pl hpl
          cases hpl)
      (by
        intro p hp
        obtain ⟨hw, hh⟩ := hdims p (mem_jsSort.mp hp)
        exact rotated_nonneg hw hh)]
  rw [jsSort_countP]
  simp

theorem packPhotosShelf_length_mp (photos : List Photo) (options : PackingOptions)
    (hmp : options.multiPage = some true) :
    (packPhotosShelf photos options).length = photos.length := by
  unfold packPhotosShelf
  rw [hmp]
  simp only [Option.getD_some]
  rw [shelf_foldl_length_mp (jsSort cmpPriorityHeight photos)
      ⟨[], 0, (getPrintableArea options).x, (getPrintableArea options).y, 0⟩]
  rw [jsSort_length]
  simp

/-! ### Claim C6 -/

/-- C6 (amended): with `multi_page = true` (and valid inputs), duplicating
an input — inserting another copy `x` of some input `a` with identical size,
rotation and priority and a new id — never decreases the number of
placements, for every algorithm.  With `multi_page = false` the claim fails
(see the counterexample): the duplicate can displace several later items. -/
theorem C6_monotone_expansion_multipage
    (l₁ l₂ : List Photo) (x a : Photo) (options : PackingOptions) (alg : String)
    (halg : alg = "guillotine" ∨ alg = "shelf" ∨ alg = "maxrects")
    (hmp : options.multiPage = some true)
    (hs : 0 ≤ options.spacing.getD 0)
    (hdims : ∀ p ∈ l₁ ++ x :: l₂, 0 ≤ p.size.width ∧ 0 ≤ p.size.height)
    (ha : a ∈ l₁ ++ l₂) (hsize : x.size = a.size) (hrot : x.rotation = a.rotation)
    (hpri : x.priority = a.priority) :
    (packPhotos (l₁ ++ l₂) alg options).length ≤
      (packPhotos (l₁ ++ x :: l₂) alg options).length := by
  have hdims' : ∀ p ∈ l₁ ++ l₂, 0 ≤ p.size.width ∧ 0 ≤ p.size.height := by
    intro p hp
    refine hdims p ?_
    rcases mem_append.mp hp with hp | hp
    · exact mem_append_left _ hp
    · exact mem_append_right _ (mem_cons_of_mem x hp)
  rcases halg with halg | halg | halg <;> subst halg
  · rw [packPhotos_guillotine_eq, packPhotos_guillotine_eq,
      packPhotosGuillotine_length_mp _ _ hmp hs hdims',
      packPhotosGuillotine_length_mp _ _ hmp hs hdims,
      countP_append, countP_append, countP_cons]
    omega
  · rw [packPhotos_shelf_eq, packPhotos_shelf_eq,
      packPhotosShelf_length_mp _ _ hmp, packPhotosShelf_length_mp _ _ hmp,
      length_append, length_append, length_cons]
    omega
  · rw [packPhotos_maxrects_eq, packPhotos_maxrects_eq,
      packPhotosMaxRects_length_mp _ _ hmp hs hdims',
      packPhotosMaxRects_length_mp _ _ hmp hs hdims,
      countP_append, countP_append, countP_cons]
    omega

/-- C6 counterexample: with `multi_page = false` on a 2×3 page, inserting a
duplicate of the 2×1 item right after it drops the shelf output from 5
placements to 4. -/
theorem C6_duplicate_decreases_counterexample :
    (packPhotos
        [⟨1, "p", "", ⟨"s", 2, 1⟩, 0, 0, 0, none, none⟩,
         ⟨9, "p", "", ⟨"s", 2, 1⟩, 0, 0, 0, none, none⟩,
         ⟨2, "p", "", ⟨"s", 1, 1⟩, 0, 0, 0, none, none⟩,
         ⟨3, "p", "", ⟨"s", 1, 1⟩, 0, 0, 0, none, none⟩,
         ⟨4, "p", "", ⟨"s", 1, 1⟩, 0, 0, 0, none, none⟩,
         ⟨5, "p", "", ⟨"s", 1, 1⟩, 0, 0, 0, none, none⟩] "shelf"
        ⟨2, 3, none, none, none, none, none, none⟩).length <
    (packPhotos
        [⟨1, "p", "", ⟨"s", 2, 1⟩, 0, 0, 0, none, none⟩,
         ⟨2, "p", "", ⟨"s", 1, 1⟩, 0, 0, 0, none, none⟩,
         ⟨3, "p", "", ⟨"s", 1, 1⟩, 0, 0, 0, none, none⟩,
         ⟨4, "p", "", ⟨"s", 1, 1⟩, 0, 0, 0, none, none⟩,
         ⟨5, "p", "", ⟨"s", 1, 1⟩, 0, 0, 0, none, none⟩] "shelf"
        ⟨2, 3, none, none, none, none, none, none⟩).length := by
  rw [packPhotos_shelf_eq, packPhotos_shelf_eq]
  norm_num [packPhotosShelf, jsSort, jsSortInsert, cmpPriorityHeight,
    getRotatedDimensions, getPrintableArea, shelfStep, shelfAdv, shelfPlace]

/-- Witness for `C6_monotone_expansion_multipage` at a concrete run. -/
theorem C6_monotone_witness :
    (packPhotos [⟨1, "p", "", ⟨"s", 2, 2⟩, 0, 0, 0, none, none⟩] "guillotine"
        ⟨4, 6, none, none, none, none, none, some true⟩).length ≤
      (packPhotos [⟨2, "p", "", ⟨"s", 2, 2⟩, 0, 0, 0, none, none⟩,
          ⟨1, "p", "", ⟨"s", 2, 2⟩, 0, 0, 0, none, none⟩] "guillotine"
        ⟨4, 6, none, none, none, none, none, some true⟩).length := by
  refine C6_monotone_expansion_multipage []
    [⟨1, "p", "", ⟨"s", 2, 2⟩, 0, 0, 0, none, none⟩]
    ⟨2, "p", "", ⟨"s", 2, 2⟩, 0, 0, 0, none, none⟩
    ⟨1, "p", "", ⟨"s", 2, 2⟩, 0, 0, 0, none, none⟩
    ⟨4, 6, none, none, none, none, none, some true⟩ "guillotine"
    (Or.inl rfl) rfl (by norm_num) ?_ (by simp) rfl rfl rfl
  intro p hp
  simp only [nil_append, mem_cons, not_mem_nil, or_false] at hp
  rcases hp with hp | hp <;> subst hp <;> norm_num

theorem guillotineStep_places_fit {printable : FreeRectangle} {s : ℚ}
    (st : RectPackState) (photo : Photo)
    (hfitp : fitsB ((getRotatedDimensions photo).1 + s)
      ((getRotatedDimensions photo).2 + s) printable = true) :
    ∃ pl ∈ (guillotineStep printable s true st photo).packed, pl.photo = photo := by
  cases hfind : findFit ((getRotatedDimensions photo).1 + s)
      ((getRotatedDimensions photo).2 + s) st.freeRectangles with
  | some triple =>
    obtain ⟨before, r, after⟩ := triple
    rw [guillotineStep_some hfind]
    exact ⟨_, mem_append_right _ (mem_singleton_self _), rfl⟩
  | none =>
    rw [guillotineStep_none_mp_fit hfind hfitp]
    exact ⟨_, mem_append_right _ (mem_singleton_self _), rfl⟩

theorem maxRectsStep_places_fit {printable : FreeRectangle} {s : ℚ}
    (st : RectPackState) (photo : Photo)
    (hfitp : fitsB ((getRotatedDimensions photo).1 + s)
      ((getRotatedDimensions photo).2 + s) printable = true) :
    ∃ pl ∈ (maxRectsStep printable s true st photo).packed, pl.photo = photo := by
  cases hsel : selectBestRect ((getRotatedDimensions photo).1 + s)
      ((getRotatedDimensions photo).2 + s) st.freeRectangles with
  | some pair =>
    obtain ⟨i, r⟩ := pair
    rw [maxRectsStep_some hsel]
    exact ⟨_, mem_append_right _ (mem_singleton_self _), rfl⟩
  | none =>
    rw [maxRectsStep_none_mp_fit hsel hfitp]
    exact ⟨_, mem_append_right _ (mem_singleton_self _), rfl⟩

theorem shelfStep_mp_places {printable : FreeRectangle} {s : ℚ}
    (st : ShelfState) (photo : Photo) :
    ∃ pl ∈ (shelfStep printable s true st photo).packed, pl.photo = photo := by
  simp only [shelfStep]
  split
  · simp only [if_true, shelfPlace]
    exact ⟨_, mem_append_right _ (mem_singleton_self _), rfl⟩
  · simp only [shelfPlace]
    exact ⟨_, mem_append_right _ (mem_singleton_self _), rfl⟩

theorem guillotine_fit_placed {printable : FreeRectangle} {s : ℚ} :
    ∀ (l : List Photo) (st : RectPackState) (p : Photo), p ∈ l →
      fitsB ((getRotatedDimensions p).1 + s) ((getRotatedDimensions p).2 + s)
        printable = true →
      ∃ pl ∈ (l.foldl (guillotineStep printable s true) st).packed, pl.photo = p := by
  intro l
  induction l with
  | nil => intro st p hp; cases hp
  | cons a t ih =>
    intro st p hp hfit
    rw [foldl_cons]
    rcases mem_cons.mp hp with hp | hp
    · subst hp
      obtain ⟨pl, hpl, hphoto⟩ := guillotineStep_places_fit st p hfit
      exact ⟨pl, foldl_packed_mono _ RectPackState.packed
        (fun st' ph => guillotineStep_packed_append st' ph) t _ pl hpl, hphoto⟩
    · exact ih _ p hp hfit

theorem maxrects_fit_placed {printable : FreeRectangle} {s : ℚ} :
    ∀ (l : List Photo) (st : RectPackState) (p : Photo), p ∈ l →
      fitsB ((getRotatedDimensions p).1 + s) ((getRotatedDimensions p).2 + s)
        printable = true →
      ∃ pl ∈ (l.foldl (maxRectsStep printable s true) st).packed, pl.photo = p := by
  intro l
  induction l with
  | nil => intro st p hp; cases hp
  | cons a t ih =>
    intro st p hp hfit
    rw [foldl_cons]
    rcases mem_cons.mp hp with hp | hp
    · subst hp
      obtain ⟨pl, hpl, hphoto⟩ := maxRectsStep_places_fit st p hfit
      exact ⟨pl, foldl_packed_mono _ RectPackState.packed
        (fun st' ph => maxRectsStep_packed_append st' ph) t _ pl hpl, hphoto⟩
    · exact ih _ p hp hfit

theorem shelf_all_placed {printable : FreeRectangle} {s : ℚ} :
    ∀ (l : List Photo) (st : ShelfState) (p : Photo), p ∈ l →
      ∃ pl ∈ (l.foldl (shelfStep printable s true) st).packed, pl.photo = p := by
  intro l
  induction l with
  | nil => intro st p hp; cases hp
  | cons a t ih =>
    intro st p hp
    rw [foldl_cons]
    rcases mem_cons.mp hp with hp | hp
    · subst hp
      obtain ⟨pl, hpl, hphoto⟩ := shelfStep_mp_places st p
      exact ⟨pl, foldl_packed_mono _ ShelfState.packed
        (fun st' ph => shelfStep_packed_append st' ph) t _ pl hpl, hphoto⟩
    · exact ih _ p hp

/-! ### Claim C9 -/

theorem jsSort_pair {cmp : α → α → ℚ} {a b : α} (h : cmp a b ≤ 0) :
    jsSort cmp [a, b] = [a, b] := by
  simp [jsSort, jsSortInsert, h]

theorem cmpPriorityArea_le_of_lt {a b : Photo}
    (h : b.priority.getD 0 < a.priority.getD 0) : cmpPriorityArea a b ≤ 0 := by
  unfold cmpPriorityArea
  rw [if_pos (by intro heq; rw [heq] at h; exact lt_irrefl _ h)]
  linarith

theorem cmpPriorityHeight_le_of_lt {a b : Photo}
    (h : b.priority.getD 0 < a.priority.getD 0) : cmpPriorityHeight a b ≤ 0 := by
  unfold cmpPriorityHeight
  rw [if_pos (by intro heq; rw [heq] at h; exact lt_irrefl _ h)]
  linarith

theorem guillotineStep_nonempty_places {printable : FreeRectangle} {s : ℚ} {mp : Bool}
    (st : RectPackState) (photo : Photo) (hpk : st.packed = [])
    (hne : (guillotineStep printable s mp st photo).packed ≠ []) :
    ∃ pl ∈ (guillotineStep printable s mp st photo).packed, pl.photo = photo := by
  cases hfind : findFit ((getRotatedDimensions photo).1 + s)
      ((getRotatedDimensions photo).2 + s) st.freeRectangles with
  | some triple =>
    obtain ⟨before, r, after⟩ := triple
    rw [guillotineStep_some hfind]
    exact ⟨_, mem_append_right _ (mem_singleton_self _), rfl⟩
  | none =>
    cases mp with
    | false =>
      rw [guillotineStep_none_nomp hfind] at hne
      exact absurd hpk hne
    | true =>
      cases hfitp : fitsB ((getRotatedDimensions photo).1 + s)
          ((getRotatedDimensions photo).2 + s) printable with
      | true =>
        rw [guillotineStep_none_mp_fit hfind hfitp]
        exact ⟨_, mem_append_right _ (mem_singleton_self _), rfl⟩
      | false =>
        rw [guillotineStep_none_mp_nofit hfind hfitp] at hne
        exact absurd hpk hne

theorem maxRectsStep_nonempty_places {printable : FreeRectangle} {s : ℚ} {mp : Bool}
    (st : RectPackState) (photo : Photo) (hpk : st.packed = [])
    (hne : (maxRectsStep printable s mp st photo).packed ≠ []) :
    ∃ pl ∈ (maxRectsStep printable s mp st photo).packed, pl.photo = photo := by
  cases hsel : selectBestRect ((getRotatedDimensions photo).1 + s)
      ((getRotatedDimensions photo).2 + s) st.freeRectangles with
  | some pair =>
    obtain ⟨i, r⟩ := pair
    rw [maxRectsStep_some hsel]
    exact ⟨_, mem_append_right _ (mem_singleton_self _), rfl⟩
  | none =>
    cases mp with
    | false =>
      rw [maxRectsStep_none_nomp hsel] at hne
      exact absurd hpk hne
    | true =>
      cases hfitp : fitsB ((getRotatedDimensions photo).1 + s)
          ((getRotatedDimensions photo).2 + s) printable with
      | true =>
        rw [maxRectsStep_none_mp_fit hsel hfitp]
        exact ⟨_, mem_append_right _ (mem_singleton_self _), rfl⟩
      | false =>
        rw [maxRectsStep_none_mp_nofit hsel hfitp] at hne
        exact absurd hpk hne

theorem shelfStep_nonempty_places {printable : FreeRectangle} {s : ℚ} {mp : Bool}
    (st : ShelfState) (photo : Photo) (hpk : st.packed = [])
    (hne : (shelfStep printable s mp st photo).packed ≠ []) :
    ∃ pl ∈ (shelfStep printable s mp st photo).packed, pl.photo = photo := by
  have hadv : (shelfAdv printable ((getRotatedDimensions photo).1 + s) st).packed =
      st.packed := by
    unfold shelfAdv
    split <;> rfl
  simp only [shelfStep] at hne ⊢
  split at hne
  · cases mp with
    | true =>
      simp only [if_true] at hne ⊢
      split
      · simp only [shelfPlace]
        exact ⟨_, mem_append_right _ (mem_singleton_self _), rfl⟩
      · simp only [shelfPlace]
        exact ⟨_, mem_append_right _ (mem_singleton_self _), rfl⟩
    | false =>
      simp only [Bool.false_eq_true, if_false] at hne ⊢
      rw [hadv] at hne
      split
      · exact absurd hpk hne
      · exact absurd hpk hne
  · simp only [shelfPlace] at hne ⊢
    split
    · exact absurd (by assumption) (by assumption)
    · exact ⟨_, mem_append_right _ (mem_singleton_self _), rfl⟩

theorem packPhotosGuillotine_pair_first (a b : Photo) (options : PackingOptions)
    (hpri : b.priority.getD 0 < a.priority.getD 0)
    (hplA : packPhotosGuillotine [a] options ≠ []) :
    ∃ pl ∈ packPhotosGuillotine [a, b] options, pl.photo = a := by
  have hsorted : jsSort cmpPriorityArea [a, b] = [a, b] :=
    jsSort_pair (cmpPriorityArea_le_of_lt hpri)
  have hone : packPhotosGuillotine [a] options =
      (guillotineStep (getPrintableArea options) (options.spacing.getD 0)
        (options.multiPage.getD false) ⟨[], 0, [getPrintableArea options]⟩ a).packed := by
    unfold packPhotosGuillotine
    rfl
  have hpair : packPhotosGuillotine [a, b] options =
      ([a, b].foldl (guillotineStep (getPrintableArea options) (options.spacing.getD 0)
        (options.multiPage.getD false)) ⟨[], 0, [getPrintableArea options]⟩).packed := by
    unfold packPhotosGuillotine
    rw [hsorted]
  rw [hone] at hplA
  obtain ⟨pl, hpl, hphoto⟩ := guillotineStep_nonempty_places _ a rfl hplA
  rw [hpair]
  refine ⟨pl, ?_, hphoto⟩
  simp only [foldl_cons, foldl_nil]
  exact foldl_packed_mono _ RectPackState.packed
    (fun st' ph => guillotineStep_packed_append st' ph) [b] _ pl hpl

theorem packPhotosMaxRects_pair_first (a b : Photo) (options : PackingOptions)
    (hpri : b.priority.getD 0 < a.priority.getD 0)
    (hplA : packPhotosMaxRects [a] options ≠ []) :
    ∃ pl ∈ packPhotosMaxRects [a, b] options, pl.photo = a := by
  have hsorted : jsSort cmpPriorityArea [a, b] = [a, b] :=
    jsSort_pair (cmpPriorityArea_le_of_lt hpri)
  have hone : packPhotosMaxRects [a] options =
      (maxRectsStep (getPrintableArea options) (options.spacing.getD 0)
        (options.multiPage.getD false) ⟨[], 0, [getPrintableArea options]⟩ a).packed := by
    unfold packPhotosMaxRects
    rfl
  have hpair : packPhotosMaxRects [a, b] options =
      ([a, b].foldl (maxRectsStep (getPrintableArea options) (options.spacing.getD 0)
        (options.multiPage.getD false)) ⟨[], 0, [getPrintableArea options]⟩).packed := by
    unfold packPhotosMaxRects
    rw [hsorted]
  rw [hone] at hplA
  obtain ⟨pl, hpl, hphoto⟩ := maxRectsStep_nonempty_places _ a rfl hplA
  rw [hpair]
  refine ⟨pl, ?_, hphoto⟩
  simp only [foldl_cons, foldl_nil]
  exact foldl_packed_mono _ RectPackState.packed
    (fun st' ph => maxRectsStep_packed_append st' ph) [b] _ pl hpl

theorem packPhotosShelf_pair_first (a b : Photo) (options : PackingOptions)
    (hpri : b.priority.getD 0 < a.priority.getD 0)
    (hplA : packPhotosShelf [a] options ≠ []) :
    ∃ pl ∈ packPhotosShelf [a, b] options, pl.photo = a := by
  have hsorted : jsSort cmpPriorityHeight [a, b] = [a, b] :=
    jsSort_pair (cmpPriorityHeight_le_of_lt hpri)
  have hone : packPhotosShelf [a] options =
      (shelfStep (getPrintableArea options) (options.spacing.getD 0)
        (options.multiPage.getD false)
        ⟨[], 0, (getPrintableArea options).x, (getPrintableArea options).y, 0⟩ a).packed := by
    unfold packPhotosShelf
    rfl
  have hpair : packPhotosShelf [a, b] options =
      ([a, b].foldl (shelfStep (getPrintableArea options) (options.spacing.getD 0)
        (options.multiPage.getD false))
        ⟨[], 0, (getPrintableArea options).x, (getPrintableArea options).y, 0⟩).packed := by
    unfold packPhotosShelf
    rw [hsorted]
  rw [hone] at hplA
  obtain ⟨pl, hpl, hphoto⟩ := shelfStep_nonempty_places _ a rfl hplA
  rw [hpair]
  refine ⟨pl, ?_, hphoto⟩
  simp only [foldl_cons, foldl_nil]
  exact foldl_packed_mono _ ShelfState.packed
    (fun st' ph => shelfStep_packed_append st' ph) [b] _ pl hpl

/-- C9 (amended): for an input consisting of exactly two items `a` and `b`
with `a.priority > b.priority`, each individually placeable on an empty
page 0, if exactly one of the two appears in the output then it is `a` —
indeed `a` always appears.  Over arbitrary input sequences the claim is
false: a third higher-priority item can consume the space `a` needs while
`b` still fits (see the counterexample). -/
theorem C9_priority_first_of_pair
    (a b : Photo) (options : PackingOptions) (alg : String)
    (halg : alg = "guillotine" ∨ alg = "shelf" ∨ alg = "maxrects")
    (hpri : b.priority.getD 0 < a.priority.getD 0)
    (hplA : packPhotos [a] alg options ≠ [])
    (hplB : packPhotos [b] alg options ≠ [])
    (hone : ((∃ pl ∈ packPhotos [a, b] alg options, pl.photo = a) ∧
             ¬(∃ pl ∈ packPhotos [a, b] alg options, pl.photo = b)) ∨
            ((∃ pl ∈ packPhotos [a, b] alg options, pl.photo = b) ∧
             ¬(∃ pl ∈ packPhotos [a, b] alg options, pl.photo = a))) :
    ∃ pl ∈ packPhotos [a, b] alg options, pl.photo = a := by
  rcases halg with halg | halg | halg <;> subst halg
  · rw [packPhotos_guillotine_eq] at hplA ⊢
    exact packPhotosGuillotine_pair_first a b options hpri hplA
  · rw [packPhotos_shelf_eq] at hplA ⊢
    exact packPhotosShelf_pair_first a b options hpri hplA
  · rw [packPhotos_maxrects_eq] at hplA ⊢
    exact packPhotosMaxRects_pair_first a b options hpri hplA

/-- C9 counterexample: guillotine, single page (`multi_page` off), page
4×4.  A third item (4×3, priority 10) is placed first; then `a` (2×2,
priority 5) no longer fits the leftover strip and is dropped, while `b`
(3×1, priority 1) still fits.  Both `a` and `b` are placeable individually
on an empty page, exactly one of the two appears in the output — and it is
`b`, not `a`. -/
theorem C9_lower_priority_survives_counterexample :
    packPhotosGuillotine [⟨2, "a", "", ⟨"s", 2, 2⟩, 0, 0, 0, some 5, none⟩]
        ⟨4, 4, none, none, none, none, none, none⟩ ≠ [] ∧
    packPhotosGuillotine [⟨3, "b", "", ⟨"s", 3, 1⟩, 0, 0, 0, some 1, none⟩]
        ⟨4, 4, none, none, none, none, none, none⟩ ≠ [] ∧
    packPhotos
        [⟨1, "P", "", ⟨"s", 4, 3⟩, 0, 0, 0, some 10, none⟩,
         ⟨2, "a", "", ⟨"s", 2, 2⟩, 0, 0, 0, some 5, none⟩,
         ⟨3, "b", "", ⟨"s", 3, 1⟩, 0, 0, 0, some 1, none⟩] "guillotine"
        ⟨4, 4, none, none, none, none, none, none⟩ =
      [⟨⟨1, "P", "", ⟨"s", 4, 3⟩, 0, 0, 0, some 10, none⟩, 0, 0, 0⟩,
       ⟨⟨3, "b", "", ⟨"s", 3, 1⟩, 0, 0, 0, some 1, none⟩, 0, 3, 0⟩] ∧
    ¬(∃ pl ∈ packPhotos
        [⟨1, "P", "", ⟨"s", 4, 3⟩, 0, 0, 0, some 10, none⟩,
         ⟨2, "a", "", ⟨"s", 2, 2⟩, 0, 0, 0, some 5, none⟩,
         ⟨3, "b", "", ⟨"s", 3, 1⟩, 0, 0, 0, some 1, none⟩] "guillotine"
        ⟨4, 4, none, none, none, none, none, none⟩,
      pl.photo = ⟨2, "a", "", ⟨"s", 2, 2⟩, 0, 0, 0, some 5, none⟩) ∧
    (∃ pl ∈ packPhotos
        [⟨1, "P", "", ⟨"s", 4, 3⟩, 0, 0, 0, some 10, none⟩,
         ⟨2, "a", "", ⟨"s", 2, 2⟩, 0, 0, 0, some 5, none⟩,
         ⟨3, "b", "", ⟨"s", 3, 1⟩, 0, 0, 0, some 1, none⟩] "guillotine"
        ⟨4, 4, none, none, none, none, none, none⟩,
      pl.photo = ⟨3, "b", "", ⟨"s", 3, 1⟩, 0, 0, 0, some 1, none⟩) := by
  have heval : packPhotos
      [⟨1, "P", "", ⟨"s", 4, 3⟩, 0, 0, 0, some 10, none⟩,
       ⟨2, "a", "", ⟨"s", 2, 2⟩, 0, 0, 0, some 5, none⟩,
       ⟨3, "b", "", ⟨"s", 3, 1⟩, 0, 0, 0, some 1, none⟩] "guillotine"
      ⟨4, 4, none, none, none, none, none, none⟩ =
      [⟨⟨1, "P", "", ⟨"s", 4, 3⟩, 0, 0, 0, some 10, none⟩, 0, 0, 0⟩,
       ⟨⟨3, "b", "", ⟨"s", 3, 1⟩, 0, 0, 0, some 1, none⟩, 0, 3, 0⟩] := by
    rw [packPhotos_guillotine_eq]
    norm_num [packPhotosGuillotine, jsSort, jsSortInsert, cmpPriorityArea,
      getRotatedDimensions, getPrintableArea, guillotineStep, findFit, fitsB,
      guillotineChildren, areaCmp]
  refine ⟨?_, ?_, heval, ?_, ?_⟩
  · norm_num [packPhotosGuillotine, jsSort, jsSortInsert, cmpPriorityArea,
      getRotatedDimensions, getPrintableArea, guillotineStep, findFit, fitsB,
      guillotineChildren, areaCmp]
  · norm_num [packPhotosGuillotine, jsSort, jsSortInsert, cmpPriorityArea,
      getRotatedDimensions, getPrintableArea, guillotineStep, findFit, fitsB,
      guillotineChildren, areaCmp]
  · rw [heval]
    rintro ⟨pl, hpl, hphoto⟩
    simp only [mem_cons, not_mem_nil, or_false] at hpl
    rcases hpl with hpl | hpl <;> subst hpl <;>
      simp only [PackedPhoto.mk.injEq] at hphoto <;> norm_num at hphoto
  · rw [heval]
    exact ⟨_, mem_cons_of_mem _ (mem_singleton_self _), rfl⟩

/-- Witness for `C9_priority_first_of_pair` at a concrete run. -/
theorem C9_priority_witness :
    ∃ pl ∈ packPhotos
        [⟨1, "a", "", ⟨"s", 4, 3⟩, 0, 0, 0, some 5, none⟩,
         ⟨2, "b", "", ⟨"s", 2, 2⟩, 0, 0, 0, some 1, none⟩] "guillotine"
        ⟨4, 4, none, none, none, none, none, none⟩,
      pl.photo = ⟨1, "a", "", ⟨"s", 4, 3⟩, 0, 0, 0, some 5, none⟩ := by
  refine C9_priority_first_of_pair
    ⟨1, "a", "", ⟨"s", 4, 3⟩, 0, 0, 0, some 5, none⟩
    ⟨2, "b", "", ⟨"s", 2, 2⟩, 0, 0, 0, some 1, none⟩
    ⟨4, 4, none, none, none, none, none, none⟩ "guillotine"
    (Or.inl rfl) (by norm_num) ?_ ?_ ?_
  · rw [packPhotos_guillotine_eq]
    norm_num [packPhotosGuillotine, jsSort, jsSortInsert, cmpPriorityArea,
      getRotatedDimensions, getPrintableArea, guillotineStep, findFit, fitsB,
      guillotineChildren, areaCmp]
  · rw [packPhotos_guillotine_eq]
    norm_num [packPhotosGuillotine, jsSort, jsSortInsert, cmpPriorityArea,
      getRotatedDimensions, getPrintableArea, guillotineStep, findFit, fitsB,
      guillotineChildren, areaCmp]
  · left
    have heval : packPhotos
        [⟨1, "a", "", ⟨"s", 4, 3⟩, 0, 0, 0, some 5, none⟩,
         ⟨2, "b", "", ⟨"s", 2, 2⟩, 0, 0, 0, some 1, none⟩] "guillotine"
        ⟨4, 4, none, none, none, none, none, none⟩ =
        [⟨⟨1, "a", "", ⟨"s", 4, 3⟩, 0, 0, 0, some 5, none⟩, 0, 0, 0⟩] := by
      rw [packPhotos_guillotine_eq]
      norm_num [packPhotosGuillotine, jsSort, jsSortInsert, cmpPriorityArea,
        getRotatedDimensions, getPrintableArea, guillotineStep, findFit, fitsB,
        guillotineChildren, areaCmp]
    rw [heval]
    constructor
    · exact ⟨_, mem_singleton_self _, rfl⟩
    · rintro ⟨pl, hpl, hphoto⟩
      simp only [mem_singleton] at hpl
      subst hpl
      simp only [PackedPhoto.mk.injEq] at hphoto
      norm_num at hphoto
